import Mathlib

/-!
Verification of the HTML-to-DOCX converter's core logic: the HTML
normalization pipeline (app/preprocess.py) and the DOCX style patcher
(app/converter.py).

Strings are modelled as `List Char` (`Str`).  Each Python regular-expression
substitution is embedded as an executable scanner that walks the text left to
right, at each position attempting the pattern exactly as the backtracking
regex engine would (leftmost match, greedy or lazy sub-expressions as in the
pattern, non-overlapping matches for `sub`).  Byte payloads are `List Nat`
with an explicit lenient UTF-8 decoder.
-/

set_option maxRecDepth 100000

abbrev Str := List Char

/-- Coerce a Lean string literal to the `List Char` representation. -/
def strL (s : String) : Str := s.data

/-- ASCII lower-casing, as applied by `re.IGNORECASE` to the ASCII pattern
letters used in this code base (Python's full Unicode case folding never
differs on the ASCII-only patterns that appear here). -/
def lowerChar (c : Char) : Char :=
  if 'A' ≤ c ∧ c ≤ 'Z' then Char.ofNat (c.toNat + 32) else c

/-- Whitespace as recognised by Python's `str.strip` / `str.isspace`. -/
def isPySpace (c : Char) : Bool :=
  c == ' ' || c == '\t' || c == '\n' || c == '\r' || c == '\x0b' || c == '\x0c' ||
  c == '\x1c' || c == '\x1d' || c == '\x1e' || c == '\x1f' || c == '\x85' || c == '\xa0' ||
  c == '\u1680' || ('\u2000' ≤ c && c ≤ '\u200A') || c == '\u2028' || c == '\u2029' ||
  c == '\u202F' || c == '\u205F' || c == '\u3000'

/-- Python `str.lstrip()`. -/
def pyLStrip (s : Str) : Str := s.dropWhile isPySpace

/-- Python `str.rstrip()`. -/
def pyRStrip (s : Str) : Str := (s.reverse.dropWhile isPySpace).reverse

/-- Python `str.strip()`. -/
def pyStrip (s : Str) : Str := pyRStrip (pyLStrip s)

/-- Exact prefix test (`pat` is a prefix of `s`). -/
def isPrefixE : Str → Str → Bool
  | [], _ => true
  | _ :: _, [] => false
  | p :: ps, c :: cs => p == c && isPrefixE ps cs

/-- Case-insensitive prefix test, as a literal matches under `re.IGNORECASE`. -/
def isPrefixCI : Str → Str → Bool
  | [], _ => true
  | _ :: _, [] => false
  | p :: ps, c :: cs => lowerChar p == lowerChar c && isPrefixCI ps cs

/-- Python's case-sensitive substring test (`pat in s`). -/
def containsSub : Str → Str → Bool
  | s, pat =>
    if isPrefixE pat s then true
    else match s with
      | [] => false
      | _ :: rest => containsSub rest pat

/-- Case-insensitive substring test. -/
def containsSubCI : Str → Str → Bool
  | s, pat =>
    if isPrefixCI pat s then true
    else match s with
      | [] => false
      | _ :: rest => containsSubCI rest pat

/-- Drop characters up to and including the first occurrence of `t`
(the deterministic reading of a greedy `[^t]*` followed by the literal `t`). -/
def skipToChar (t : Char) : Str → Option Str
  | [] => none
  | c :: cs => if c == t then some cs else skipToChar t cs

/-- Generic driver for `re.sub` with a replacement function: walk the text
left to right; where the scanner `f` reports a match (producing the
replacement text and the remainder after the match), emit the replacement and
resume after the match; elsewhere copy one character and continue.  Every
scanner used in this development consumes at least one character on success,
so fuel `s.length` never runs out. -/
def subAllAux (f : Str → Option (Str × Str)) : Nat → Str → Str
  | _, [] => []
  | 0, s => s
  | fuel + 1, c :: cs =>
    match f (c :: cs) with
    | some (rep, rest) => rep ++ subAllAux f fuel rest
    | none => c :: subAllAux f fuel cs

/-- Apply a pattern scanner as a global substitution over the whole text. -/
def subAll (f : Str → Option (Str × Str)) (s : Str) : Str :=
  subAllAux f s.length s

theorem subAllAux_congr {f g : Str → Option (Str × Str)} (h : ∀ s, f s = g s) :
    ∀ fuel s, subAllAux f fuel s = subAllAux g fuel s := by
  intro fuel
  induction fuel with
  | zero => intro s; cases s <;> simp [subAllAux]
  | succ n ih =>
    intro s
    cases s with
    | nil => simp [subAllAux]
    | cons c cs =>
      simp only [subAllAux, h]
      cases hg : g (c :: cs) with
      | none => simp [ih]
      | some pr => simp [ih]

theorem subAll_congr {f g : Str → Option (Str × Str)} (h : ∀ s, f s = g s) (s : Str) :
    subAll f s = subAll g s := subAllAux_congr h s.length s

/-!
## normalize_math_spans (preprocess.py lines 11-14, 119-128)

Pattern: `<span[^>]*class="[^"]*math-tex[^"]*"[^>]*>(.*?)</span>` with
IGNORECASE and DOTALL.  The scanner below mirrors the backtracking engine:
after the literal `<span`, the greedy `[^>]*` prefers the latest position at
which `class="` (and everything after it) still matches; inside the quotes the
value must contain `math-tex` before the closing quote; then `[^>]*>` runs to
the next `>`; the lazy body ends at the first `</span>`.
-/

/-- Capture the lazy `(.*?)</span>` body: split at the first `</span>`
(case-insensitively), returning the captured group and the remainder after
the closing tag. -/
def mathBodyTry : Str → Option (Str × Str)
  | [] => none
  | c :: cs =>
    if isPrefixCI (strL "</span>") (c :: cs) then some ([], (c :: cs).drop 7)
    else (mathBodyTry cs).map (fun pr => (c :: pr.1, pr.2))

/-- After `class="`: require `math-tex` somewhere before the closing quote,
then skip to the closing quote and to the `>` ending the open tag, returning
the position where the span body starts. -/
def mathClassValTry : Str → Option Str
  | [] => none
  | c :: cs =>
    if c == '"' then none
    else if isPrefixCI (strL "math-tex") (c :: cs) then
      match skipToChar '"' ((c :: cs).drop 8) with
      | some afterQuote => skipToChar '>' afterQuote
      | none => none
    else mathClassValTry cs

/-- Backtracking search for `[^>]*class="[^"]*math-tex[^"]*"[^>]*>(.*?)</span>`
after the literal `<span`: the greedy `[^>]*` tries the latest viable
`class="` first and falls back to earlier ones (also when the body search for
`</span>` fails). -/
def mathSpanTailTry : Str → Option (Str × Str)
  | [] => none
  | c :: cs =>
    match if c == '>' then none else mathSpanTailTry cs with
    | some r => some r
    | none =>
      if isPrefixCI (strL "class=\"") (c :: cs) then
        match mathClassValTry ((c :: cs).drop 7) with
        | some bodyStart => mathBodyTry bodyStart
        | none => none
      else none

/-- MATH_SPAN_PATTERN as a scanner: on a match, yield the captured inner text
and the remainder of the input after the whole match. -/
def mathSpanTry (s : Str) : Option (Str × Str) :=
  if isPrefixCI (strL "<span") s then mathSpanTailTry (s.drop 5) else none

/-- MATH_SPAN_PATTERN.sub with an arbitrary replacement function of the
captured group. -/
def mathSpanSubWith (rf : Str → Str) (html : Str) : Str :=
  subAll (fun s => (mathSpanTry s).map (fun pr => (rf pr.1, pr.2))) html

/-- The `_replace` callback of `normalize_math_spans`: trim the captured
group; if it already starts with `$` or `\(` return it, else wrap it in
`\(`...`\)`. -/
def math_replace (inner : Str) : Str :=
  let inner := pyStrip inner
  if isPrefixE (strL "$") inner || isPrefixE (strL "\\(") inner then inner
  else strL "\\(" ++ inner ++ strL "\\)"

/-- preprocess.normalize_math_spans. -/
def normalize_math_spans (html : Str) : Str :=
  mathSpanSubWith math_replace html

/-- The per-span replacement exactly as claim C1 words it: the trimmed inner
text wrapped in TeX delimiters, unless the trimmed inner text already starts
with `$` or `\(`, in which case the span content is used unchanged
(untrimmed). -/
def claimReplaceUnchanged (inner : Str) : Str :=
  if isPrefixE (strL "$") (pyStrip inner) || isPrefixE (strL "\\(") (pyStrip inner) then inner
  else strL "\\(" ++ pyStrip inner ++ strL "\\)"

/-- The per-span replacement as amended: the trimmed inner text wrapped in
TeX delimiters, unless the trimmed inner text already starts with `$` or
`\(`, in which case the trimmed inner text is used as is (no delimiters
added). -/
def claimReplaceTrimmed (inner : Str) : Str :=
  let t := pyStrip inner
  if isPrefixE (strL "$") t || isPrefixE (strL "\\(") t then t
  else strL "\\(" ++ t ++ strL "\\)"

/-- C1, counterexample.  The claim as stated says that when the trimmed inner
text of a math-tex span already starts with `$` or `\(`, the span content is
used unchanged.  On the input `<span class="math-tex"> $x$ </span>` the code
produces `$x$` (the trimmed content), not the unchanged content ` $x$ `, so
the substitution differs from the claimed one at this input. -/
theorem c1_counterexample :
    normalize_math_spans (strL "<span class=\"math-tex\"> $x$ </span>") = strL "$x$" ∧
    mathSpanSubWith claimReplaceUnchanged (strL "<span class=\"math-tex\"> $x$ </span>") =
      strL " $x$ " ∧
    normalize_math_spans (strL "<span class=\"math-tex\"> $x$ </span>") ≠
      mathSpanSubWith claimReplaceUnchanged (strL "<span class=\"math-tex\"> $x$ </span>") := by
  refine ⟨by decide, by decide, by decide⟩

/-- C1, amended.  For every HTML string, each matched math-tex span (a `<span>`
whose double-quoted class attribute value contains `math-tex`) is replaced by
its inner text trimmed and wrapped in `\(`...`\)`, unless the trimmed inner
text already starts with `$` or `\(`, in which case the trimmed inner text is
used as is (no delimiters added).  Concretely, a bare fraction span becomes
`\(\frac{1}{2}\)` and an already-delimited span is not double-wrapped. -/
theorem c1_amended :
    (∀ s : Str, normalize_math_spans s = mathSpanSubWith claimReplaceTrimmed s) ∧
    normalize_math_spans (strL "<p><span class=\"math-tex\">\\frac{1}{2}</span></p>") =
      strL "<p>\\(\\frac{1}{2}\\)</p>" ∧
    normalize_math_spans (strL "<span class=\"math-tex\">\\(a+b\\)</span>") =
      strL "\\(a+b\\)" := by
  refine ⟨fun s => ?_, by decide, by decide⟩
  exact subAll_congr (fun t => by
    cases mathSpanTry t <;> rfl) s

/-!
## Entity unescaping (Python stdlib html.unescape)

Modelled from the stdlib call `html.unescape`, restricted to the entity forms
that occur in this pipeline (named lt/gt/amp/quot and their upper-case
variants, and nbsp); all other text is copied through verbatim, and `&amp;`
is decoded in a single pass (no re-scanning of its output), as the stdlib
function does.
-/

def htmlUnescape : Str → Str
  | [] => []
  | '&' :: 'l' :: 't' :: ';' :: rest => '<' :: htmlUnescape rest
  | '&' :: 'g' :: 't' :: ';' :: rest => '>' :: htmlUnescape rest
  | '&' :: 'a' :: 'm' :: 'p' :: ';' :: rest => '&' :: htmlUnescape rest
  | '&' :: 'q' :: 'u' :: 'o' :: 't' :: ';' :: rest => '"' :: htmlUnescape rest
  | '&' :: 'L' :: 'T' :: ';' :: rest => '<' :: htmlUnescape rest
  | '&' :: 'G' :: 'T' :: ';' :: rest => '>' :: htmlUnescape rest
  | '&' :: 'A' :: 'M' :: 'P' :: ';' :: rest => '&' :: htmlUnescape rest
  | '&' :: 'Q' :: 'U' :: 'O' :: 'T' :: ';' :: rest => '"' :: htmlUnescape rest
  | '&' :: 'n' :: 'b' :: 's' :: 'p' :: ';' :: rest => '\xa0' :: htmlUnescape rest
  | c :: rest => c :: htmlUnescape rest

/-!
## promote_escaped_html (preprocess.py lines 23-107, 131-152)

ESCAPED_TAG_PATTERN:
`&lt;(?P<full>(?P<prefix>/?)\s*(?P<tag>[A-Za-z][A-Za-z0-9:-]*)(?P<tail>[^<>]*?))&gt;`
with IGNORECASE.
-/

def isAsciiAlpha (c : Char) : Bool :=
  ('A' ≤ c && c ≤ 'Z') || ('a' ≤ c && c ≤ 'z')

def isTagChar (c : Char) : Bool :=
  isAsciiAlpha c || ('0' ≤ c && c ≤ '9') || c == ':' || c == '-'

/-- The lazy `(?P<tail>[^<>]*?)&gt;`: extend the tail one character at a time,
stopping at the first `&gt;`; a literal `<` or `>` kills the match. -/
def lazyUntilGt : Str → Option (Str × Str)
  | [] => none
  | c :: cs =>
    if isPrefixCI (strL "&gt;") (c :: cs) then some ([], (c :: cs).drop 4)
    else if c == '<' || c == '>' then none
    else (lazyUntilGt cs).map (fun pr => (c :: pr.1, pr.2))

/-- ESCAPED_TAG_PATTERN as a scanner: on a match, yield ((whole match text,
tag group), rest after the match). -/
def escTagTry (s : Str) : Option ((Str × Str) × Str) :=
  if isPrefixCI (strL "&lt;") s then
    let after := s.drop 4
    let slashLen : Nat := match after with
      | '/' :: _ => 1
      | _ => 0
    let afterSlash := after.drop slashLen
    let wsLen := (afterSlash.takeWhile isPySpace).length
    let afterWs := afterSlash.drop wsLen
    match afterWs with
    | c :: cs =>
      if isAsciiAlpha c then
        let tag := c :: cs.takeWhile isTagChar
        let afterTag := cs.dropWhile isTagChar
        match lazyUntilGt afterTag with
        | some (tailPart, rest) =>
          some ((s.take (4 + slashLen + wsLen + tag.length + tailPart.length + 4), tag), rest)
        | none => none
      else none
    | [] => none
  else none

def PROMOTABLE_TAGS : List Str :=
  [strL "a", strL "abbr", strL "article", strL "aside", strL "b", strL "blockquote",
   strL "body", strL "br", strL "button", strL "caption", strL "code", strL "col",
   strL "colgroup", strL "dd", strL "details", strL "div", strL "dl", strL "dt",
   strL "em", strL "figcaption", strL "figure", strL "footer", strL "form",
   strL "h1", strL "h2", strL "h3", strL "h4", strL "h5", strL "h6", strL "head",
   strL "header", strL "hr", strL "html", strL "link", strL "meta", strL "img",
   strL "input", strL "label", strL "legend", strL "li", strL "main", strL "math",
   strL "mfrac", strL "mi", strL "mn", strL "mo", strL "mrow", strL "ms",
   strL "msqrt", strL "msub", strL "msubsup", strL "msup", strL "mtext",
   strL "mspace", strL "nav", strL "ol", strL "option", strL "p", strL "pre",
   strL "title", strL "section", strL "select", strL "small", strL "span",
   strL "strong", strL "sub", strL "summary", strL "sup", strL "table",
   strL "tbody", strL "td", strL "textarea", strL "tfoot", strL "th",
   strL "thead", strL "tr", strL "u", strL "ul"]

/-- Whether `cleaned` ends with `>` (Python `str.endswith(">")`). -/
def endsWithGt (s : Str) : Bool :=
  match s.reverse with
  | '>' :: _ => true
  | _ => false

/-- The `_promote` callback of `promote_escaped_html`. -/
def promoteReplace (matchText tag : Str) : Str :=
  if !(PROMOTABLE_TAGS.contains (tag.map lowerChar)) then matchText
  else
    let bodyUnescaped := htmlUnescape matchText
    let cleaned := pyStrip bodyUnescaped
    if !(isPrefixE (strL "<") cleaned) then matchText
    else if endsWithGt cleaned then cleaned
    else cleaned ++ strL ">"

/-- preprocess.promote_escaped_html. -/
def promote_escaped_html (html : Str) : Str :=
  if !(containsSub html (strL "&lt;")) || !(containsSub html (strL "&gt;")) then html
  else subAll (fun s => (escTagTry s).map (fun pr => (promoteReplace pr.1.1 pr.1.2, pr.2))) html

/-!
## strip_html_boilerplate (preprocess.py lines 7-10, 155-162)
-/

/-- Drop everything up to and including the first case-insensitive occurrence
of `pat` (the deterministic reading of a lazy `.*?` followed by `pat`). -/
def skipToSubCI (pat : Str) : Str → Option Str
  | [] => none
  | c :: cs =>
    if isPrefixCI pat (c :: cs) then some ((c :: cs).drop pat.length)
    else skipToSubCI pat cs

/-- DOCTYPE_PATTERN `<!DOCTYPE[^>]*>` (IGNORECASE) as a deleting scanner. -/
def doctypeTry (s : Str) : Option (Str × Str) :=
  if isPrefixCI (strL "<!DOCTYPE") s then
    (skipToChar '>' (s.drop 9)).map (fun r => (([] : Str), r))
  else none

/-- ENCODED_DOCTYPE_PATTERN `&lt;!DOCTYPE[^&]*&gt;` (IGNORECASE): the greedy
`[^&]*` runs to the first `&`, which must start the literal `&gt;`. -/
def encodedDoctypeTry (s : Str) : Option (Str × Str) :=
  if isPrefixCI (strL "&lt;!DOCTYPE") s then
    let after := (s.drop 12).dropWhile (fun c => !(c == '&'))
    if isPrefixCI (strL "&gt;") after then some (([] : Str), after.drop 4) else none
  else none

/-- STYLE_BLOCK_PATTERN `<style[^>]*>.*?</style>` (IGNORECASE, DOTALL). -/
def styleBlockTry (s : Str) : Option (Str × Str) :=
  if isPrefixCI (strL "<style") s then
    match skipToChar '>' (s.drop 6) with
    | some afterOpen =>
      (skipToSubCI (strL "</style>") afterOpen).map (fun r => (([] : Str), r))
    | none => none
  else none

/-- ENCODED_STYLE_PATTERN `&lt;style[^&]*&gt;.*?&lt;/style&gt;`. -/
def encodedStyleTry (s : Str) : Option (Str × Str) :=
  if isPrefixCI (strL "&lt;style") s then
    let after := (s.drop 9).dropWhile (fun c => !(c == '&'))
    if isPrefixCI (strL "&gt;") after then
      (skipToSubCI (strL "&lt;/style&gt;") (after.drop 4)).map (fun r => (([] : Str), r))
    else none
  else none

/-- preprocess.strip_html_boilerplate. -/
def strip_html_boilerplate (html : Str) : Str :=
  let html := subAll doctypeTry html
  let html := subAll encodedDoctypeTry html
  let html := subAll styleBlockTry html
  let html := subAll encodedStyleTry html
  html

/-!
## extract_embedded_html (preprocess.py lines 109, 165-169)

EMBEDDED_HTML_PATTERN `&lt;html.*?&lt;/html&gt;` (IGNORECASE, DOTALL),
used with `re.search`: leftmost start, lazy end.
-/

/-- Take the characters of `s` up to and including the first case-insensitive
occurrence of `pat`. -/
def takeThroughSubCI (pat : Str) : Str → Option Str
  | [] => none
  | c :: cs =>
    if isPrefixCI pat (c :: cs) then some ((c :: cs).take pat.length)
    else (takeThroughSubCI pat cs).map (fun r => c :: r)

/-- re.search for EMBEDDED_HTML_PATTERN: return the whole matched text.  A
start whose opener has no closing `&lt;/html&gt;` fails and the search
continues at the next position. -/
def embeddedSearch : Str → Option Str
  | [] => none
  | c :: cs =>
    if isPrefixCI (strL "&lt;html") (c :: cs) then
      match takeThroughSubCI (strL "&lt;/html&gt;") ((c :: cs).drop 7) with
      | some body => some ((c :: cs).take 7 ++ body)
      | none => embeddedSearch cs
    else embeddedSearch cs

/-- preprocess.extract_embedded_html. -/
def extract_embedded_html (html : Str) : Str × Bool :=
  match embeddedSearch html with
  | none => (html, false)
  | some m => (htmlUnescape m, true)

/-!
## wrap_bare_latex_sequences / wrap_bare_latex_in_text (preprocess.py 16-21, 234-274)
-/

def LATEX_KEYWORDS : List Str :=
  [strL "frac", strL "times", strL "sqrt", strL "sum", strL "prod", strL "int",
   strL "left", strL "right", strL "binom", strL "over", strL "cdot", strL "dots",
   strL "ldots", strL "sin", strL "cos", strL "tan", strL "log", strL "ln",
   strL "pi", strL "alpha", strL "beta", strL "gamma", strL "theta"]

/-- LATEX_KEYWORD_PATTERN.search: a backslash immediately followed by one of
the keywords, case-insensitively, anywhere in the text. -/
def latexKeywordSearch : Str → Bool
  | [] => false
  | c :: cs =>
    (c == '\\' && LATEX_KEYWORDS.any (fun k => isPrefixCI k cs)) || latexKeywordSearch cs

/-- preprocess.wrap_bare_latex_in_text. -/
def wrap_bare_latex_in_text (text : Str) : Str :=
  let stripped := pyStrip text
  if stripped.isEmpty then text
  else if containsSub stripped (strL "\\(") || containsSub stripped (strL "\\[") ||
      containsSub stripped (strL "$") || containsSub stripped (strL "<latex>") then text
  else if !(containsSub stripped (strL "\\")) then text
  else if !(latexKeywordSearch stripped) then text
  else
    let leadingWs := text.length - (pyLStrip text).length
    let trailingWs := text.length - (pyRStrip text).length
    let core :=
      if trailingWs ≠ 0 then (text.take (text.length - trailingWs)).drop leadingWs
      else text.drop leadingWs
    let trailingPart := if trailingWs ≠ 0 then text.drop (text.length - trailingWs) else ([] : Str)
    let pref := core.takeWhile (fun c => !(c == ':'))
    let suff := (core.dropWhile (fun c => !(c == ':'))).drop 1
    if containsSub core (strL ":") &&
        (containsSub suff (strL "\\") &&
          !(containsSub suff (strL "\\(") || containsSub suff (strL "\\[") ||
            containsSub suff (strL "<span"))) then
      let suffixWs := suff.length - (pyLStrip suff).length
      let suffixCore := suff.drop suffixWs
      text.take leadingWs ++ pref ++ strL ":" ++ suff.take suffixWs ++
        strL "<span class=\"math-tex\">" ++ pyStrip suffixCore ++ strL "</span>" ++ trailingPart
    else
      text.take leadingWs ++ strL "<span class=\"math-tex\">" ++ core ++ strL "</span>" ++
        trailingPart

/-- TEXT_NODE_PATTERN `>([^<>]+)<` with the `_wrap_text_node` callback of
`wrap_bare_latex_sequences`. -/
def textNodeTry (s : Str) : Option (Str × Str) :=
  match s with
  | '>' :: rest =>
    let run := rest.takeWhile (fun c => !(c == '<') && !(c == '>'))
    if run.isEmpty then none
    else match rest.drop run.length with
      | '<' :: after =>
        let replaced := wrap_bare_latex_in_text run
        if replaced == run then some ('>' :: run ++ strL "<", after)
        else some ('>' :: replaced ++ strL "<", after)
      | _ => none
  | _ => none

/-- preprocess.wrap_bare_latex_sequences. -/
def wrap_bare_latex_sequences (html : Str) : Str :=
  subAll textNodeTry html

/-!
## Byte payloads: lenient UTF-8 decoding and UTF-8 encoding

`payload.decode("utf-8", errors="ignore")` drops ill-formed byte sequences
instead of raising.  Skipping one byte at a time on failure produces the same
output as CPython's maximal-subpart skipping, because stray continuation
bytes are themselves invalid start bytes.
-/

def utf8Cont (b : Nat) : Bool := 0x80 ≤ b && b ≤ 0xBF

/-- Constraint on the first continuation byte of a three-byte sequence
(excludes overlong encodings and surrogates). -/
def utf8Cont3First (b b1 : Nat) : Bool :=
  if b == 0xE0 then 0xA0 ≤ b1 && b1 ≤ 0xBF
  else if b == 0xED then 0x80 ≤ b1 && b1 ≤ 0x9F
  else utf8Cont b1

/-- Constraint on the first continuation byte of a four-byte sequence. -/
def utf8Cont4First (b b1 : Nat) : Bool :=
  if b == 0xF0 then 0x90 ≤ b1 && b1 ≤ 0xBF
  else if b == 0xF4 then 0x80 ≤ b1 && b1 ≤ 0x8F
  else utf8Cont b1

/-- Lenient UTF-8 decoding (errors="ignore"): well-formed sequences decode to
their scalar value, ill-formed bytes are skipped.  The fuel argument only
serves termination; every step consumes at least one byte, so fuel equal to
the byte count never runs out. -/
def utf8DecodeIgnoreAux : Nat → List Nat → Str
  | 0, _ => []
  | _, [] => []
  | fuel + 1, b :: tl =>
    if b < 0x80 then Char.ofNat b :: utf8DecodeIgnoreAux fuel tl
    else if 0xC2 ≤ b && b ≤ 0xDF then
      match tl with
      | b1 :: tl1 =>
        if utf8Cont b1 then
          Char.ofNat ((b - 0xC0) * 0x40 + (b1 - 0x80)) :: utf8DecodeIgnoreAux fuel tl1
        else utf8DecodeIgnoreAux fuel (b1 :: tl1)
      | [] => []
    else if 0xE0 ≤ b && b ≤ 0xEF then
      match tl with
      | b1 :: b2 :: tl2 =>
        if utf8Cont3First b b1 && utf8Cont b2 then
          Char.ofNat ((b - 0xE0) * 0x1000 + (b1 - 0x80) * 0x40 + (b2 - 0x80)) ::
            utf8DecodeIgnoreAux fuel tl2
        else utf8DecodeIgnoreAux fuel (b1 :: b2 :: tl2)
      | rest => utf8DecodeIgnoreAux fuel rest
    else if 0xF0 ≤ b && b ≤ 0xF4 then
      match tl with
      | b1 :: b2 :: b3 :: tl3 =>
        if utf8Cont4First b b1 && utf8Cont b2 && utf8Cont b3 then
          Char.ofNat ((b - 0xF0) * 0x40000 + (b1 - 0x80) * 0x1000 + (b2 - 0x80) * 0x40 +
              (b3 - 0x80)) :: utf8DecodeIgnoreAux fuel tl3
        else utf8DecodeIgnoreAux fuel (b1 :: b2 :: b3 :: tl3)
      | rest => utf8DecodeIgnoreAux fuel rest
    else utf8DecodeIgnoreAux fuel tl

/-- payload.decode("utf-8", errors="ignore"). -/
def utf8DecodeIgnore (bs : List Nat) : Str := utf8DecodeIgnoreAux bs.length bs

/-- UTF-8 encoding of one scalar value. -/
def utf8EncodeChar (c : Char) : List Nat :=
  let n := c.toNat
  if n < 0x80 then [n]
  else if n < 0x800 then [0xC0 + n / 0x40, 0x80 + n % 0x40]
  else if n < 0x10000 then [0xE0 + n / 0x1000, 0x80 + (n / 0x40) % 0x40, 0x80 + n % 0x40]
  else [0xF0 + n / 0x40000, 0x80 + (n / 0x1000) % 0x40, 0x80 + (n / 0x40) % 0x40,
        0x80 + n % 0x40]

/-- UTF-8 encoding of a string. -/
def utf8Encode (s : Str) : List Nat := (s.map utf8EncodeChar).flatten

-- scratch checks
example : promote_escaped_html (strL "&lt;p&gt;hello&lt;/p&gt;") = strL "<p>hello</p>" := by decide
example : promote_escaped_html (strL "&lt;script&gt;") = strL "&lt;script&gt;" := by decide
example : extract_embedded_html (strL "A &lt;html&gt;x&lt;/html&gt; B") =
    (strL "<html>x</html>", true) := by decide
example : utf8DecodeIgnore [0xFF, 0x61, 0xC3, 0xA9] = strL "aé" := by decide
example : utf8Encode (strL "aé") = [0x61, 0xC3, 0xA9] := by decide

/-!
## simplify_word_export (preprocess.py lines 111-116, 172-215)
-/

/-- Try the alternatives of a regex alternation in order, returning the
length of the first alternative that matches as a (case-insensitive) prefix.
Used where the alternation is followed by `[^>]*`, so the first prefix match
determines the overall match. -/
def altMatch : List Str → Str → Option Nat
  | [], _ => none
  | a :: rest, s => if isPrefixCI a s then some a.length else altMatch rest s

/-- The alternation of BLOCK_IN_P_PATTERN (line 114) and of the line-190
substitution, with `h[1-6]` expanded. -/
def BLOCK_ALTS : List Str :=
  [strL "html", strL "head", strL "body", strL "div", strL "section", strL "article",
   strL "aside", strL "nav", strL "main", strL "figure", strL "figcaption",
   strL "h1", strL "h2", strL "h3", strL "h4", strL "h5", strL "h6",
   strL "ul", strL "ol", strL "li", strL "table", strL "thead", strL "tbody",
   strL "tfoot", strL "tr", strL "td", strL "th", strL "blockquote", strL "pre"]

/-- The alternation of the line-196 substitution. -/
def META_ALTS : List Str := [strL "meta", strL "title", strL "link"]

/-- The alternation of the line-203 substitution. -/
def P_OPEN_ALTS : List Str :=
  [strL "meta", strL "title", strL "div", strL "section", strL "article",
   strL "aside", strL "nav", strL "main", strL "figure", strL "figcaption",
   strL "h1", strL "h2", strL "h3", strL "h4", strL "h5", strL "h6",
   strL "ul", strL "ol", strL "li", strL "table", strL "thead", strL "tbody",
   strL "tfoot", strL "tr", strL "td", strL "th", strL "blockquote", strL "pre",
   strL "body", strL "html"]

/-- The alternation of the line-209 substitution. -/
def CLOSER_ALTS : List Str :=
  [strL "div", strL "section", strL "article", strL "aside", strL "nav",
   strL "main", strL "figure", strL "figcaption", strL "ul", strL "ol",
   strL "table", strL "tbody", strL "tfoot", strL "thead", strL "tr",
   strL "td", strL "th", strL "blockquote", strL "pre", strL "body", strL "html"]

/-- MSO_SPAN_PATTERN `</?span[^>]*>` (IGNORECASE) as a deleting scanner. -/
def msoSpanTry (s : Str) : Option (Str × Str) :=
  match s with
  | '<' :: rest =>
    let slashLen : Nat := match rest with
      | '/' :: _ => 1
      | _ => 0
    let r2 := rest.drop slashLen
    if isPrefixCI (strL "span") r2 then
      (skipToChar '>' (r2.drop 4)).map (fun r => (([] : Str), r))
    else none
  | _ => none

/-- MSO_CLASS_PATTERN `\sclass="?(?:Mso[^"\s>]*)"?` (IGNORECASE) as a deleting
scanner; both optional quotes are taken greedily when present. -/
def msoClassTry (s : Str) : Option (Str × Str) :=
  match s with
  | c :: rest =>
    if isPySpace c then
      if isPrefixCI (strL "class=") rest then
        let afterEq := rest.drop 6
        let quoteLen : Nat := match afterEq with
          | '"' :: _ => 1
          | _ => 0
        let afterQ := afterEq.drop quoteLen
        if isPrefixCI (strL "Mso") afterQ then
          let afterMso := afterQ.drop 3
          let afterRun := afterMso.dropWhile (fun d => !(d == '"') && !(isPySpace d) && !(d == '>'))
          let endQuoteLen : Nat := match afterRun with
            | '"' :: _ => 1
            | _ => 0
          some (([] : Str), afterRun.drop endQuoteLen)
        else none
      else none
    else none
  | [] => none

/-- Exact closing tag `</(?:alts)>`: the alternatives are tried in order and
the literal `>` must follow immediately; at most one alternative can complete
(no alternative extended by `>` is a prefix of another such completion). -/
def closerAlt : List Str → Str → Option Nat
  | [], _ => none
  | a :: rest, t =>
    if isPrefixCI a t && isPrefixE (strL ">") (t.drop a.length) then some (a.length + 3)
    else closerAlt rest t

/-- Length of a `</(?:alts)>` match at the start of `s`, if any. -/
def closerMatch (alts : List Str) (s : Str) : Option Nat :=
  if isPrefixCI (strL "</") s then closerAlt alts (s.drop 2) else none

/-- The lazy `.*?</(?:alts)>\s*</p>` part of BLOCK_IN_P_PATTERN: grow the body
one character at a time; at each position that carries a closing block tag,
check for `\s*</p>`; if that fails, keep growing (regex backtracking).
Returns (body text including the closing tag, rest after the final `</p>`). -/
def blockBodyScan (alts : List Str) : Str → Option (Str × Str)
  | [] => none
  | c :: cs =>
    match
      match closerMatch alts (c :: cs) with
      | some n =>
        let afterCloser := (c :: cs).drop n
        let ws := (afterCloser.takeWhile isPySpace).length
        if isPrefixCI (strL "</p>") (afterCloser.drop ws) then
          some ((c :: cs).take n, (afterCloser.drop ws).drop 4)
        else none
      | none => none
    with
    | some pr => some pr
    | none => (blockBodyScan alts cs).map (fun pr => (c :: pr.1, pr.2))

/-- BLOCK_IN_P_PATTERN
`<p>\s*(<(?:blocks)[^>]*>.*?</(?:blocks)>)\s*</p>` (IGNORECASE, DOTALL) with
replacement by the captured group. -/
def blockInPTry (s : Str) : Option (Str × Str) :=
  if isPrefixCI (strL "<p>") s then
    let after := s.drop 3
    let ws1 := (after.takeWhile isPySpace).length
    let t := after.drop ws1
    match t with
    | '<' :: tRest =>
      match altMatch BLOCK_ALTS tRest with
      | some _ =>
        match skipToChar '>' tRest with
        | some afterOpen =>
          let openLen := t.length - afterOpen.length
          match blockBodyScan BLOCK_ALTS afterOpen with
          | some (bodyCloser, rest) => some (t.take openLen ++ bodyCloser, rest)
          | none => none
        | none => none
      | none => none
    | _ => none
  else none

/-- One pass of `BLOCK_IN_P_PATTERN.sub(r"\1", value)`. -/
def blockInPSub (value : Str) : Str := subAll blockInPTry value

/-- The `_strip_wrappers` fixed-point loop of `simplify_word_export`: apply
`BLOCK_IN_P_PATTERN.sub` repeatedly until the text stops changing.  Every
productive pass removes at least the seven characters `<p></p>`, so fuel
`length + 1` always reaches the fixed point. -/
def strip_wrappers_aux : Nat → Str → Str
  | 0, v => v
  | fuel + 1, v =>
    let vNew := blockInPSub v
    if vNew == v then v else strip_wrappers_aux fuel vNew

/-- `_strip_wrappers` (preprocess.py lines 181-187). -/
def strip_wrappers (v : Str) : Str := strip_wrappers_aux (v.length + 1) v

/-- Lines 190-201: `(</?(?:alts)[^>]*>)\s*</p>` replaced by the captured tag. -/
def tagThenPcloseTry (alts : List Str) (s : Str) : Option (Str × Str) :=
  match s with
  | '<' :: rest =>
    let slashLen : Nat := match rest with
      | '/' :: _ => 1
      | _ => 0
    let r2 := rest.drop slashLen
    match altMatch alts r2 with
    | some _ =>
      match skipToChar '>' r2 with
      | some afterGt =>
        let tagLen := s.length - afterGt.length
        let ws := (afterGt.takeWhile isPySpace).length
        if isPrefixCI (strL "</p>") (afterGt.drop ws) then
          some (s.take tagLen, (afterGt.drop ws).drop 4)
        else none
      | none => none
    | none => none
  | _ => none

/-- Line 202: `<p>\s*</p>` deleted. -/
def emptyPTry (s : Str) : Option (Str × Str) :=
  if isPrefixCI (strL "<p>") s then
    let after := s.drop 3
    let ws := (after.takeWhile isPySpace).length
    if isPrefixCI (strL "</p>") (after.drop ws) then some (([] : Str), (after.drop ws).drop 4)
    else none
  else none

/-- Lines 203-208: `<p>\s*(<(?:alts)[^>]*>)` replaced by the captured tag. -/
def pBeforeBlockTry (alts : List Str) (s : Str) : Option (Str × Str) :=
  if isPrefixCI (strL "<p>") s then
    let after := s.drop 3
    let ws := (after.takeWhile isPySpace).length
    let t := after.drop ws
    match t with
    | '<' :: tRest =>
      match altMatch alts tRest with
      | some _ =>
        match skipToChar '>' tRest with
        | some afterGt => some (t.take (t.length - afterGt.length), afterGt)
        | none => none
      | none => none
    | _ => none
  else none

/-- Line 209: `(</(?:alts)>)\s*</p>` replaced by the captured closing tag. -/
def closerThenPcloseTry (alts : List Str) (s : Str) : Option (Str × Str) :=
  match closerMatch alts s with
  | some n =>
    let after := s.drop n
    let ws := (after.takeWhile isPySpace).length
    if isPrefixCI (strL "</p>") (after.drop ws) then some (s.take n, (after.drop ws).drop 4)
    else none
  | none => none

/-- Python `str.replace` (all non-overlapping occurrences, left to right,
case sensitive). -/
def replaceAllSub (pat rep : Str) (s : Str) : Str :=
  subAll (fun t => if isPrefixE pat t then some (rep, t.drop pat.length) else none) s

/-- The body of `simplify_word_export` after its vendor-marker gate
(preprocess.py lines 178-215). -/
def simplifyWordCore (html : Str) : Str :=
  let html := subAll msoSpanTry html
  let html := subAll msoClassTry html
  let html := strip_wrappers html
  let html := subAll (tagThenPcloseTry BLOCK_ALTS) html
  let html := subAll (tagThenPcloseTry META_ALTS) html
  let html := subAll emptyPTry html
  let html := subAll (pBeforeBlockTry P_OPEN_ALTS) html
  let html := subAll (closerThenPcloseTry CLOSER_ALTS) html
  let html := replaceAllSub (strL "<p></div>") (strL "</div>") html
  let html := replaceAllSub (strL "<p></head>") (strL "</head>") html
  let html := replaceAllSub (strL "<p></body>") (strL "</body>") html
  let html := replaceAllSub (strL "<p></html>") (strL "</html>") html
  let html := replaceAllSub (strL "<p><p") (strL "<p") html
  let html := replaceAllSub (strL "</p></p>") (strL "</p>") html
  html

/-- preprocess.simplify_word_export: return the text unchanged unless it
contains the vendor marker `Mso` or `mso-`; otherwise run the cleanup body. -/
def simplify_word_export (html : Str) : Str :=
  if !(containsSub html (strL "Mso")) && !(containsSub html (strL "mso-")) then html
  else simplifyWordCore html

/-!
## prepare_html (preprocess.py lines 218-231)
-/

/-- Lines 223-224 of `prepare_html`: the word-export simplification pass is
run only when an embedded document was extracted. -/
def wordExportStage (text : Str) (embedded_found : Bool) : Str :=
  if embedded_found then simplify_word_export text else text

/-- Lines 226-228 of `prepare_html`: entity promotion (followed by a second
boilerplate strip) runs only when its gate is set. -/
def entityPromotionStage (text : Str) (gate : Bool) : Str :=
  if gate then strip_html_boilerplate (promote_escaped_html text) else text

/-- The text-level pipeline of `prepare_html` (between decoding and
encoding). -/
def prepareTextPipeline (text0 : Str) (promote_entities : Bool) : Str :=
  let er := extract_embedded_html text0
  let text := er.1
  let embedded_found := er.2
  let text := wordExportStage text embedded_found
  let text := strip_html_boilerplate text
  let text := entityPromotionStage text (promote_entities || embedded_found)
  let text := wrap_bare_latex_sequences text
  let text := normalize_math_spans text
  text

/-- preprocess.prepare_html: decode leniently, run the pipeline, re-encode. -/
def prepare_html (payload : List Nat) (promote_entities : Bool) : List Nat :=
  utf8Encode (prepareTextPipeline (utf8DecodeIgnore payload) promote_entities)

-- scratch checks
example : strip_wrappers (strL "<p><h1>Title</h1></p>") = strL "<h1>Title</h1>" := by decide
example : simplify_word_export (strL "<p class=\"MsoNormal\"><h1>Title</h1></p>") =
    strL "<h1>Title</h1>" := by decide
example : prepare_html (utf8Encode (strL "<p><h1>Title</h1></p>")) false =
    utf8Encode (strL "<p><h1>Title</h1></p>") := by decide
example : prepare_html (utf8Encode (strL "<p>text with \\frac{1}{2} inline</p>")) false =
    utf8Encode (strL "<p>\\(text with \\frac{1}{2} inline\\)</p>") := by decide

/-!
## Claims C2-C5 and C9 about the normalization pipeline
-/

/-- The vendor-marker test of `simplify_word_export` (line 175): the text
contains `Mso` or `mso-`. -/
def hasMsoMarker (t : Str) : Bool :=
  containsSub t (strL "Mso") || containsSub t (strL "mso-")

/-- C2, counterexample.  The claim says the word-export simplification pass
runs whenever `embedded_found` is true OR the text contains the vendor
marker.  The input `<p class="MsoNormal">x</p>` contains the marker, yet with
`embedded_found = false` the stage returns it unchanged (prepare_html only
calls `simplify_word_export` when `embedded_found` is true), although the
pass itself would have rewritten it to `<p>x</p>`. -/
theorem c2_counterexample :
    hasMsoMarker (strL "<p class=\"MsoNormal\">x</p>") = true ∧
    wordExportStage (strL "<p class=\"MsoNormal\">x</p>") false =
      strL "<p class=\"MsoNormal\">x</p>" ∧
    simplifyWordCore (strL "<p class=\"MsoNormal\">x</p>") = strL "<p>x</p>" ∧
    strL "<p class=\"MsoNormal\">x</p>" ≠ strL "<p>x</p>" := by
  refine ⟨by decide, by decide, by decide, by decide⟩

/-- C2, amended.  The word-export simplification body runs exactly when
`embedded_found` is true AND the working text contains the vendor marker
(`Mso`/`mso-`); for every input failing either condition this stage passes
the text through unchanged. -/
theorem c2_amended (t : Str) (e : Bool) :
    wordExportStage t e = if e && hasMsoMarker t then simplifyWordCore t else t := by
  cases e with
  | false => simp [wordExportStage]
  | true =>
    simp only [wordExportStage, simplify_word_export, hasMsoMarker, Bool.true_and]
    cases h1 : containsSub t (strL "Mso") <;> cases h2 : containsSub t (strL "mso-") <;>
      simp [h1, h2]

/-- C2, amended, witness at a concrete input. -/
theorem c2_amended_witness :
    wordExportStage (strL "<p class=\"MsoNormal\">x</p>") true =
      (if true && hasMsoMarker (strL "<p class=\"MsoNormal\">x</p>") then
        simplifyWordCore (strL "<p class=\"MsoNormal\">x</p>")
      else strL "<p class=\"MsoNormal\">x</p>") :=
  c2_amended (strL "<p class=\"MsoNormal\">x</p>") true

/-- C3, counterexample.  Normalizing `<p>text with \frac{1}{2} inline</p>`
wraps the whole text node, producing
`<p>\(text with \frac{1}{2} inline\)</p>`; the claimed fragment
`\(\frac{1}{2}\)` (fraction alone inside the delimiters, words outside) does
not occur in the output. -/
theorem c3_counterexample :
    prepareTextPipeline (strL "<p>text with \\frac{1}{2} inline</p>") false =
      strL "<p>\\(text with \\frac{1}{2} inline\\)</p>" ∧
    containsSub (prepareTextPipeline (strL "<p>text with \\frac{1}{2} inline</p>") false)
      (strL "\\(\\frac{1}{2}\\)") = false := by
  refine ⟨by decide, by decide⟩

/-- C3, amended.  Normalizing `<p>text with \frac{1}{2} inline</p>` wraps the
entire text node in one pair of inline math delimiters: the output is
`<p>\(text with \frac{1}{2} inline\)</p>`, with the fraction and the
surrounding words together inside `\(`...`\)`. -/
theorem c3_amended :
    prepare_html (utf8Encode (strL "<p>text with \\frac{1}{2} inline</p>")) false =
      utf8Encode (strL "<p>\\(text with \\frac{1}{2} inline\\)</p>") := by
  decide

/-- C4, counterexample.  Normalizing `<p><h1>Title</h1></p>` changes nothing
at all (the block-in-paragraph unwrapping lives inside the word-export
cleanup, which prepare_html reaches only for embedded documents that carry
the Mso vendor marker), so the claimed reduction to `<h1>Title</h1>` does not
happen. -/
theorem c4_counterexample :
    prepare_html (utf8Encode (strL "<p><h1>Title</h1></p>")) false =
      utf8Encode (strL "<p><h1>Title</h1></p>") ∧
    strL "<p><h1>Title</h1></p>" ≠ strL "<h1>Title</h1>" := by
  refine ⟨by decide, by decide⟩

/-- C4, amended.  The paragraph-unwrapping transform itself (the fixed-point
`BLOCK_IN_P` pass of the word-export cleanup) reduces `<p><h1>Title</h1></p>`
to `<h1>Title</h1>` and is at a fixed point there; the full cleanup pass does
the same when it is reached (for example with a Word vendor class present). -/
theorem c4_amended :
    strip_wrappers (strL "<p><h1>Title</h1></p>") = strL "<h1>Title</h1>" ∧
    strip_wrappers (strL "<h1>Title</h1>") = strL "<h1>Title</h1>" ∧
    simplify_word_export (strL "<p class=\"MsoNormal\"><h1>Title</h1></p>") =
      strL "<h1>Title</h1>" ∧
    simplify_word_export (strL "<h1>Title</h1>") = strL "<h1>Title</h1>" := by
  refine ⟨by decide, by decide, by decide, by decide⟩

/-- C5.  With entity promotion active, every entity-escaped tag whose name is
on the allow-list is unescaped into literal markup (shown for the whole
allow-list on `&lt;TAG&gt;hello&lt;/TAG&gt;`, and through the full pipeline
for `&lt;p&gt;hello&lt;/p&gt;` with the promotion flag set), while an escaped
tag whose name is not on the allow-list, such as `&lt;script&gt;`, is left
escaped and unchanged. -/
theorem c5_allowlist_promotion :
    (∀ t ∈ PROMOTABLE_TAGS,
      promote_escaped_html (strL "&lt;" ++ t ++ strL "&gt;hello&lt;/" ++ t ++ strL "&gt;") =
        strL "<" ++ t ++ strL ">hello</" ++ t ++ strL ">") ∧
    prepare_html (utf8Encode (strL "&lt;p&gt;hello&lt;/p&gt;")) true =
      utf8Encode (strL "<p>hello</p>") ∧
    prepare_html (utf8Encode (strL "x &lt;script&gt;alert(1)&lt;/script&gt; y")) true =
      utf8Encode (strL "x &lt;script&gt;alert(1)&lt;/script&gt; y") ∧
    promote_escaped_html (strL "&lt;script&gt;") = strL "&lt;script&gt;" := by
  refine ⟨?_, by decide, by decide, by decide⟩
  decide

/-- C5, witness: the allow-list clause applied at the concrete tag `p`. -/
theorem c5_allowlist_promotion_witness :
    strL "p" ∈ PROMOTABLE_TAGS ∧
    promote_escaped_html (strL "&lt;" ++ strL "p" ++ strL "&gt;hello&lt;/" ++ strL "p" ++ strL "&gt;") =
      strL "<" ++ strL "p" ++ strL ">hello</" ++ strL "p" ++ strL ">" :=
  ⟨by decide, c5_allowlist_promotion.1 (strL "p") (by decide)⟩

/-- C9, counterexample.  The input
`&lt;html&gt;&amp;lt;htmlz A&amp;lt;/html&amp;gt;&lt;/html&gt;` contains no
math-tex span and no bare LaTeX keyword (not even a backslash), yet
normalization is not idempotent on it: the first pass unescapes the embedded
document to `<html>&lt;htmlz A&lt;/html&gt;</html>` (the inner escaped block
survives because `htmlz` is not promotable), and the second pass then
extracts that inner `&lt;htmlz A&lt;/html&gt;` block and unescapes it to
`<htmlz A</html>`, discarding the rest. -/
theorem c9_counterexample :
    containsSub (strL "&lt;html&gt;&amp;lt;htmlz A&amp;lt;/html&amp;gt;&lt;/html&gt;")
      (strL "math-tex") = false ∧
    containsSub (strL "&lt;html&gt;&amp;lt;htmlz A&amp;lt;/html&amp;gt;&lt;/html&gt;")
      (strL "\\") = false ∧
    normalize_math_spans (strL "&lt;html&gt;&amp;lt;htmlz A&amp;lt;/html&amp;gt;&lt;/html&gt;") =
      strL "&lt;html&gt;&amp;lt;htmlz A&amp;lt;/html&amp;gt;&lt;/html&gt;" ∧
    wrap_bare_latex_sequences (strL "&lt;html&gt;&amp;lt;htmlz A&amp;lt;/html&amp;gt;&lt;/html&gt;") =
      strL "&lt;html&gt;&amp;lt;htmlz A&amp;lt;/html&amp;gt;&lt;/html&gt;" ∧
    prepare_html (prepare_html
        (utf8Encode (strL "&lt;html&gt;&amp;lt;htmlz A&amp;lt;/html&amp;gt;&lt;/html&gt;")) false)
        false ≠
      prepare_html (utf8Encode (strL "&lt;html&gt;&amp;lt;htmlz A&amp;lt;/html&amp;gt;&lt;/html&gt;"))
        false := by
  refine ⟨by decide, by decide, by decide, by decide, by decide⟩

/-!
## Fuel irrelevance and encode/decode roundtrip for the UTF-8 codec
-/

theorem utf8Aux_nil (f : Nat) : utf8DecodeIgnoreAux f [] = [] := by
  cases f <;> rfl

theorem utf8Aux_fuel_irrel : ∀ (n g : Nat) (bs : List Nat), bs.length ≤ n → bs.length ≤ g →
    utf8DecodeIgnoreAux n bs = utf8DecodeIgnoreAux g bs := by
  intro n
  induction n with
  | zero =>
    intro g bs h1 _
    have hbs : bs = [] := by cases bs with | nil => rfl | cons b tl => simp at h1
    subst hbs
    cases g <;> rfl
  | succ n ih =>
    intro g bs h1 h2
    cases bs with
    | nil => cases g <;> rfl
    | cons b tl =>
      cases g with
      | zero => simp at h2
      | succ g =>
        have ht1 : tl.length ≤ n := by simp at h1; omega
        have ht2 : tl.length ≤ g := by simp at h2; omega
        simp only [utf8DecodeIgnoreAux]
        repeat' split
        all_goals simp only [List.length_cons] at ht1 ht2
        all_goals first
          | rfl
          | (exact utf8Aux_nil _)
          | (exact ih _ _ (by first | omega | (simp only [List.length_cons]; omega))
              (by first | omega | (simp only [List.length_cons]; omega)))
          | (exact congrArg _ (ih _ _ (by first | omega | (simp only [List.length_cons]; omega))
              (by first | omega | (simp only [List.length_cons]; omega))))

theorem utf8Aux_fuel_ge (bs : List Nat) (m : Nat) :
    utf8DecodeIgnoreAux (bs.length + m) bs = utf8DecodeIgnore bs :=
  utf8Aux_fuel_irrel (bs.length + m) bs.length bs (by omega) (Nat.le_refl _)

theorem utf8Aux_cons_ascii {b : Nat} (h : b < 0x80) (f : Nat) (tl : List Nat) :
    utf8DecodeIgnoreAux (f + 1) (b :: tl) = Char.ofNat b :: utf8DecodeIgnoreAux f tl := by
  simp only [utf8DecodeIgnoreAux]
  rw [if_pos h]

theorem utf8Aux_cons2 {b b1 : Nat} (f : Nat) (tl : List Nat)
    (hb : 0xC2 ≤ b ∧ b ≤ 0xDF) (hc : utf8Cont b1 = true) :
    utf8DecodeIgnoreAux (f + 1) (b :: b1 :: tl) =
      Char.ofNat ((b - 0xC0) * 0x40 + (b1 - 0x80)) :: utf8DecodeIgnoreAux f tl := by
  have h1 : ¬ b < 0x80 := by omega
  have h2 : (decide (0xC2 ≤ b) && decide (b ≤ 0xDF)) = true := by
    simp only [Bool.and_eq_true, decide_eq_true_eq]; omega
  simp only [utf8DecodeIgnoreAux]
  rw [if_neg h1, if_pos h2, if_pos hc]

theorem utf8Aux_cons3 {b b1 b2 : Nat} (f : Nat) (tl : List Nat)
    (hb : 0xE0 ≤ b ∧ b ≤ 0xEF) (hc : (utf8Cont3First b b1 && utf8Cont b2) = true) :
    utf8DecodeIgnoreAux (f + 1) (b :: b1 :: b2 :: tl) =
      Char.ofNat ((b - 0xE0) * 0x1000 + (b1 - 0x80) * 0x40 + (b2 - 0x80)) ::
        utf8DecodeIgnoreAux f tl := by
  have h1 : ¬ b < 0x80 := by omega
  have h2 : ¬ (decide (0xC2 ≤ b) && decide (b ≤ 0xDF)) = true := by
    simp only [Bool.and_eq_true, decide_eq_true_eq]; omega
  have h3 : (decide (0xE0 ≤ b) && decide (b ≤ 0xEF)) = true := by
    simp only [Bool.and_eq_true, decide_eq_true_eq]; omega
  simp only [utf8DecodeIgnoreAux]
  rw [if_neg h1, if_neg h2, if_pos h3, if_pos hc]

theorem utf8Aux_cons4 {b b1 b2 b3 : Nat} (f : Nat) (tl : List Nat)
    (hb : 0xF0 ≤ b ∧ b ≤ 0xF4)
    (hc : (utf8Cont4First b b1 && utf8Cont b2 && utf8Cont b3) = true) :
    utf8DecodeIgnoreAux (f + 1) (b :: b1 :: b2 :: b3 :: tl) =
      Char.ofNat ((b - 0xF0) * 0x40000 + (b1 - 0x80) * 0x1000 + (b2 - 0x80) * 0x40 +
          (b3 - 0x80)) :: utf8DecodeIgnoreAux f tl := by
  have h1 : ¬ b < 0x80 := by omega
  have h2 : ¬ (decide (0xC2 ≤ b) && decide (b ≤ 0xDF)) = true := by
    simp only [Bool.and_eq_true, decide_eq_true_eq]; omega
  have h3 : ¬ (decide (0xE0 ≤ b) && decide (b ≤ 0xEF)) = true := by
    simp only [Bool.and_eq_true, decide_eq_true_eq]; omega
  have h4 : (decide (0xF0 ≤ b) && decide (b ≤ 0xF4)) = true := by
    simp only [Bool.and_eq_true, decide_eq_true_eq]; omega
  simp only [utf8DecodeIgnoreAux]
  rw [if_neg h1, if_neg h2, if_neg h3, if_pos h4, if_pos hc]

/-- Well-formed UTF-8 encodings decode back to the original string: the
lenient decoder drops nothing on valid output of the encoder. -/
theorem utf8_decode_encode : ∀ s : Str, utf8DecodeIgnore (utf8Encode s) = s := by
  intro s
  induction s with
  | nil => rfl
  | cons c s ih =>
    have hval : c.toNat < 0xd800 ∨ (0xe000 ≤ c.toNat ∧ c.toNat < 0x110000) := c.valid
    have hE : utf8Encode (c :: s) = utf8EncodeChar c ++ utf8Encode s := by
      simp [utf8Encode]
    rw [hE]
    rcases Nat.lt_or_ge c.toNat 0x80 with h1 | h1
    · have henc : utf8EncodeChar c = [c.toNat] := by
        unfold utf8EncodeChar
        rw [if_pos h1]
      rw [henc]
      show utf8DecodeIgnoreAux ((utf8Encode s).length + 1) (c.toNat :: utf8Encode s) = c :: s
      rw [utf8Aux_cons_ascii h1, Char.ofNat_toNat]
      exact congrArg _ ih
    · rcases Nat.lt_or_ge c.toNat 0x800 with h2 | h2
      · have henc : utf8EncodeChar c = [0xC0 + c.toNat / 0x40, 0x80 + c.toNat % 0x40] := by
          unfold utf8EncodeChar
          rw [if_neg (by omega), if_pos h2]
        rw [henc]
        show utf8DecodeIgnoreAux ((utf8Encode s).length + 1 + 1)
            ((0xC0 + c.toNat / 0x40) :: (0x80 + c.toNat % 0x40) :: utf8Encode s) = c :: s
        rw [utf8Aux_cons2 _ _ (by omega) (by simp only [utf8Cont, Bool.and_eq_true, decide_eq_true_eq]; omega)]
        have hv : (0xC0 + c.toNat / 0x40 - 0xC0) * 0x40 + (0x80 + c.toNat % 0x40 - 0x80) = c.toNat := by
          omega
        rw [hv, Char.ofNat_toNat]
        rw [utf8Aux_fuel_ge (utf8Encode s) 1]
        exact congrArg _ ih
      · rcases Nat.lt_or_ge c.toNat 0x10000 with h3 | h3
        · have henc : utf8EncodeChar c =
              [0xE0 + c.toNat / 0x1000, 0x80 + (c.toNat / 0x40) % 0x40, 0x80 + c.toNat % 0x40] := by
            unfold utf8EncodeChar
            rw [if_neg (by omega), if_neg (by omega), if_pos h3]
          rw [henc]
          show utf8DecodeIgnoreAux ((utf8Encode s).length + 1 + 1 + 1)
              ((0xE0 + c.toNat / 0x1000) :: (0x80 + (c.toNat / 0x40) % 0x40) ::
                (0x80 + c.toNat % 0x40) :: utf8Encode s) = c :: s
          have hcond : (utf8Cont3First (0xE0 + c.toNat / 0x1000) (0x80 + (c.toNat / 0x40) % 0x40) &&
              utf8Cont (0x80 + c.toNat % 0x40)) = true := by
            unfold utf8Cont3First utf8Cont
            split
            next hb =>
              simp only [beq_iff_eq] at hb
              simp only [Bool.and_eq_true, decide_eq_true_eq]
              omega
            next hb =>
              split
              next hb2 =>
                simp only [beq_iff_eq] at hb2
                simp only [Bool.and_eq_true, decide_eq_true_eq]
                omega
              next hb2 =>
                simp only [Bool.and_eq_true, decide_eq_true_eq]
                omega
          rw [utf8Aux_cons3 _ _ (by omega) hcond]
          have hv : (0xE0 + c.toNat / 0x1000 - 0xE0) * 0x1000 +
              (0x80 + (c.toNat / 0x40) % 0x40 - 0x80) * 0x40 +
              (0x80 + c.toNat % 0x40 - 0x80) = c.toNat := by omega
          rw [hv, Char.ofNat_toNat]
          rw [utf8Aux_fuel_ge (utf8Encode s) 2]
          exact congrArg _ ih
        · have hlt : c.toNat < 0x110000 := by omega
          have henc : utf8EncodeChar c =
              [0xF0 + c.toNat / 0x40000, 0x80 + (c.toNat / 0x1000) % 0x40,
               0x80 + (c.toNat / 0x40) % 0x40, 0x80 + c.toNat % 0x40] := by
            unfold utf8EncodeChar
            rw [if_neg (by omega), if_neg (by omega), if_neg (by omega)]
          rw [henc]
          show utf8DecodeIgnoreAux ((utf8Encode s).length + 1 + 1 + 1 + 1)
              ((0xF0 + c.toNat / 0x40000) :: (0x80 + (c.toNat / 0x1000) % 0x40) ::
                (0x80 + (c.toNat / 0x40) % 0x40) :: (0x80 + c.toNat % 0x40) :: utf8Encode s) =
              c :: s
          have hcond : (utf8Cont4First (0xF0 + c.toNat / 0x40000) (0x80 + (c.toNat / 0x1000) % 0x40) &&
              utf8Cont (0x80 + (c.toNat / 0x40) % 0x40) &&
              utf8Cont (0x80 + c.toNat % 0x40)) = true := by
            unfold utf8Cont4First utf8Cont
            split
            next hb =>
              simp only [beq_iff_eq] at hb
              simp only [Bool.and_eq_true, decide_eq_true_eq]
              omega
            next hb =>
              split
              next hb2 =>
                simp only [beq_iff_eq] at hb2
                simp only [Bool.and_eq_true, decide_eq_true_eq]
                omega
              next hb2 =>
                simp only [beq_iff_eq] at hb hb2
                simp only [Bool.and_eq_true, decide_eq_true_eq]
                omega
          rw [utf8Aux_cons4 _ _ (by omega) hcond]
          have hv : (0xF0 + c.toNat / 0x40000 - 0xF0) * 0x40000 +
              (0x80 + (c.toNat / 0x1000) % 0x40 - 0x80) * 0x1000 +
              (0x80 + (c.toNat / 0x40) % 0x40 - 0x80) * 0x40 +
              (0x80 + c.toNat % 0x40 - 0x80) = c.toNat := by omega
          rw [hv, Char.ofNat_toNat]
          rw [utf8Aux_fuel_ge (utf8Encode s) 3]
          exact congrArg _ ih

/-!
## Claims C8 and C9 (amended)
-/

/-- C8.  prepare_html is total on arbitrary byte sequences (it is a pure
function in this embedding; the source raises nothing: decoding uses
errors="ignore" and every transform is a total string rewrite) and always
returns the UTF-8 encoding of some string; bytes that can never start a valid
UTF-8 sequence are dropped by the lenient decoder; and the result depends
only on what survives lenient decoding. -/
theorem c8_total_utf8_output :
    (∀ (payload : List Nat) (pe : Bool), ∃ s : Str, prepare_html payload pe = utf8Encode s) ∧
    (∀ bs : List Nat, utf8DecodeIgnore (0xFF :: bs) = utf8DecodeIgnore bs) ∧
    (∀ (payload : List Nat) (pe : Bool),
      prepare_html payload pe = prepare_html (utf8Encode (utf8DecodeIgnore payload)) pe) := by
  refine ⟨fun payload pe => ⟨prepareTextPipeline (utf8DecodeIgnore payload) pe, rfl⟩,
    fun bs => rfl, fun payload pe => ?_⟩
  unfold prepare_html
  rw [utf8_decode_encode]

theorem isPrefixCI_of_append (p1 p2 : Str) : ∀ s : Str,
    isPrefixCI (p1 ++ p2) s = true → isPrefixCI p1 s = true := by
  induction p1 with
  | nil => intro s _; rfl
  | cons a p1 ih =>
    intro s h
    cases s with
    | nil => simp [isPrefixCI] at h
    | cons c cs =>
      simp only [List.cons_append, isPrefixCI, Bool.and_eq_true] at h ⊢
      exact ⟨h.1, ih cs h.2⟩

theorem isPrefixE_imp_CI : ∀ p s : Str, isPrefixE p s = true → isPrefixCI p s = true := by
  intro p
  induction p with
  | nil => intro s _; rfl
  | cons a p ih =>
    intro s h
    cases s with
    | nil => simp [isPrefixE] at h
    | cons c cs =>
      simp only [isPrefixE, isPrefixCI, Bool.and_eq_true, beq_iff_eq] at h ⊢
      exact ⟨by rw [h.1], ih cs h.2⟩

theorem containsSub_imp_CI : ∀ y p : Str, containsSub y p = true → containsSubCI y p = true := by
  intro y
  induction y with
  | nil =>
    intro p h
    rw [containsSub] at h
    rw [containsSubCI]
    split at h
    · rw [if_pos (isPrefixE_imp_CI _ _ (by assumption))]
    · simp at h
  | cons c cs ih =>
    intro p h
    rw [containsSub] at h
    rw [containsSubCI]
    split at h
    · rw [if_pos (isPrefixE_imp_CI _ _ (by assumption))]
    · split
      · rfl
      · exact ih p h

theorem embeddedSearch_none : ∀ y : Str, containsSubCI y (strL "&lt;") = false →
    embeddedSearch y = none := by
  intro y
  induction y with
  | nil => intro _; rfl
  | cons c cs ih =>
    intro h
    rw [containsSubCI] at h
    by_cases hp : isPrefixCI (strL "&lt;") (c :: cs) = true
    · rw [if_pos hp] at h
      exact absurd h (by simp)
    · rw [if_neg hp] at h
      have hml : isPrefixCI (strL "&lt;html") (c :: cs) = false := by
        cases hv : isPrefixCI (strL "&lt;html") (c :: cs) with
        | false => rfl
        | true =>
          exact absurd (isPrefixCI_of_append (strL "&lt;") (strL "html") (c :: cs)
            (by rw [show strL "&lt;" ++ strL "html" = strL "&lt;html" from by decide]
                exact hv)) hp
      rw [embeddedSearch, hml]
      simp only [Bool.false_eq_true, if_false]
      exact ih h

/-- A second run of the text pipeline is the identity on any text `y` that
contains no (case-insensitive) `&lt;`, is fixed by boilerplate stripping, by
bare-LaTeX wrapping and by math-span normalization. -/
theorem prepareTextPipeline_fixed (y : Str) (pe : Bool)
    (h1 : containsSubCI y (strL "&lt;") = false)
    (h2 : strip_html_boilerplate y = y)
    (h3 : wrap_bare_latex_sequences y = y)
    (h4 : normalize_math_spans y = y) :
    prepareTextPipeline y pe = y := by
  have hemb : extract_embedded_html y = (y, false) := by
    unfold extract_embedded_html
    rw [embeddedSearch_none y h1]
  have hlt : containsSub y (strL "&lt;") = false := by
    cases hv : containsSub y (strL "&lt;") with
    | false => rfl
    | true => rw [containsSub_imp_CI y _ hv] at h1; exact absurd h1 (by simp)
  have hpro : promote_escaped_html y = y := by
    unfold promote_escaped_html
    rw [hlt]
    simp
  unfold prepareTextPipeline
  rw [hemb]
  simp only [wordExportStage, entityPromotionStage, Bool.or_false, Bool.false_eq_true, if_false]
  rw [h2]
  cases pe with
  | false =>
    simp only [Bool.false_eq_true, if_false]
    rw [h3, h4]
  | true =>
    simp only [if_pos rfl, if_true]
    rw [hpro, h2, h3, h4]

/-- C9, amended.  Normalization is idempotent on every input whose normalized
text contains no case-insensitive `&lt;` (so no embedded-document extraction
or entity promotion can fire in a second pass) and is fixed by boilerplate
stripping, bare-LaTeX wrapping and math-span normalization — in particular on
ordinary inputs with no math-tex spans, no bare LaTeX keywords and no escaped
markup. -/
theorem c9_amended (payload : List Nat) (pe : Bool) (y : Str)
    (hy : prepareTextPipeline (utf8DecodeIgnore payload) pe = y)
    (h1 : containsSubCI y (strL "&lt;") = false)
    (h2 : strip_html_boilerplate y = y)
    (h3 : wrap_bare_latex_sequences y = y)
    (h4 : normalize_math_spans y = y) :
    prepare_html (prepare_html payload pe) pe = prepare_html payload pe := by
  unfold prepare_html
  rw [hy, utf8_decode_encode, prepareTextPipeline_fixed y pe h1 h2 h3 h4]

/-- C9, amended, witness at a concrete input. -/
theorem c9_amended_witness :
    prepareTextPipeline (utf8DecodeIgnore (utf8Encode (strL "<p>hi</p>"))) false =
      strL "<p>hi</p>" ∧
    containsSubCI (strL "<p>hi</p>") (strL "&lt;") = false ∧
    strip_html_boilerplate (strL "<p>hi</p>") = strL "<p>hi</p>" ∧
    wrap_bare_latex_sequences (strL "<p>hi</p>") = strL "<p>hi</p>" ∧
    normalize_math_spans (strL "<p>hi</p>") = strL "<p>hi</p>" ∧
    prepare_html (prepare_html (utf8Encode (strL "<p>hi</p>")) false) false =
      prepare_html (utf8Encode (strL "<p>hi</p>")) false :=
  ⟨by decide, by decide, by decide, by decide, by decide,
    c9_amended (utf8Encode (strL "<p>hi</p>")) false (strL "<p>hi</p>")
      (by decide) (by decide) (by decide) (by decide) (by decide)⟩

/-!
## DOCX style patcher (app/converter.py)

A DOCX package is modelled as an association list from part names to part
contents; the style-definitions part, when well-formed, is carried as a
parsed XML element tree (`ET.parse` composed with `tree.write` is abstracted
to the identity on trees; a part that is not well-formed XML makes the parse
step fail, which the caller absorbs).  XML elements follow
xml.etree.ElementTree: a tag, an ordered attribute list with unique keys,
and a list of children; `find` searches direct children, `.//tag[@attr]`
searches descendants in document order, `SubElement` appends, `set` updates
in place or appends, and `attrib.pop` removes a key.
-/

mutual
inductive Xml where
  | elem (tag : String) (attrs : List (String × String)) (children : XmlForest)
inductive XmlForest where
  | nil
  | cons (x : Xml) (xs : XmlForest)
end

def Xml.tag : Xml → String
  | .elem t _ _ => t

def Xml.attrs : Xml → List (String × String)
  | .elem _ a _ => a

def Xml.children : Xml → XmlForest
  | .elem _ _ ch => ch

def attrLookup : List (String × String) → String → Option String
  | [], _ => none
  | (k, v) :: rest, key => if k == key then some v else attrLookup rest key

def attrSet : List (String × String) → String → String → List (String × String)
  | [], key, val => [(key, val)]
  | (k, v) :: rest, key, val =>
    if k == key then (key, val) :: rest else (k, v) :: attrSet rest key val

def attrPop : List (String × String) → String → List (String × String)
  | [], _ => []
  | (k, v) :: rest, key =>
    if k == key then attrPop rest key else (k, v) :: attrPop rest key

def getAttr (x : Xml) (k : String) : Option String := attrLookup x.attrs k

def setAttr (x : Xml) (k v : String) : Xml := .elem x.tag (attrSet x.attrs k v) x.children

def popAttr (x : Xml) (k : String) : Xml := .elem x.tag (attrPop x.attrs k) x.children

/-- HtmlToDocxConverter._WORD_NS. -/
def wNS : String := "http://schemas.openxmlformats.org/wordprocessingml/2006/main"

/-- A namespaced tag in ElementTree notation. -/
def wTag (localName : String) : String := "\x7b" ++ wNS ++ "\x7d" ++ localName

def forestAppend : XmlForest → Xml → XmlForest
  | .nil, e => .cons e .nil
  | .cons x xs, e => .cons x (forestAppend xs e)

/-- ElementTree `parent.find("w:t")`: first direct child with the tag. -/
def findChildF (t : String) : XmlForest → Option Xml
  | .nil => none
  | .cons x xs => if x.tag == t then some x else findChildF t xs

/-- In-place mutation of the first direct child with the tag. -/
def mapFirstChildF (t : String) (f : Xml → Xml) : XmlForest → XmlForest
  | .nil => .nil
  | .cons x xs => if x.tag == t then .cons (f x) xs else .cons x (mapFirstChildF t f xs)

/-- The colour-cell mutation of `_ensure_color`: `color.set(val)` followed by
popping the three theme attributes. -/
def forceColorAttrs (colorHex : String) (col : Xml) : Xml :=
  popAttr (popAttr (popAttr (setAttr col (wTag "val") colorHex)
    (wTag "themeColor")) (wTag "themeTint")) (wTag "themeShade")

/-- The `_ensure_color` helper of `_update_style_color`: find or append the
`w:color` child, set its `w:val` to the target and drop the three theme
attributes. -/
def ensureColor (colorHex : String) (parent : Xml) : Xml :=
  match findChildF (wTag "color") parent.children with
  | some _ =>
    Xml.elem parent.tag parent.attrs
      (mapFirstChildF (wTag "color") (forceColorAttrs colorHex) parent.children)
  | none =>
    Xml.elem parent.tag parent.attrs (forestAppend parent.children
      (Xml.elem (wTag "color") [(wTag "val", colorHex)] XmlForest.nil))

/-- `ET.SubElement(x, t)` guarded by `x.find(t) is None`: append a fresh
empty child with tag `t` unless one already exists. -/
def appendChildIfMissing (t : String) (x : Xml) : Xml :=
  match findChildF t x.children with
  | some _ => x
  | none => Xml.elem x.tag x.attrs (forestAppend x.children (Xml.elem t [] XmlForest.nil))

/-- In-place mutation of the first child with tag `t`. -/
def mapChild (t : String) (f : Xml → Xml) (x : Xml) : Xml :=
  Xml.elem x.tag x.attrs (mapFirstChildF t f x.children)

/-- The mutation `_update_style_color` applies inside the paragraph
properties: find or create the run properties and force the colour there. -/
def patchRunProps (colorHex : String) (pPr : Xml) : Xml :=
  mapChild (wTag "rPr") (ensureColor colorHex) (appendChildIfMissing (wTag "rPr") pPr)

/-- HtmlToDocxConverter._update_style_color: find or create `w:pPr`, force
the colour on its `w:rPr`, then force it on the style's own `w:rPr`. -/
def update_style_color (colorHex : String) (style : Xml) : Xml :=
  mapChild (wTag "rPr") (ensureColor colorHex) (appendChildIfMissing (wTag "rPr")
    (mapChild (wTag "pPr") (patchRunProps colorHex) (appendChildIfMissing (wTag "pPr") style)))

mutual
/-- Preorder search of a subtree (the node itself, then its descendants). -/
def findInTree (p : Xml → Bool) : Xml → Option Xml
  | .elem t a ch =>
    if p (.elem t a ch) then some (.elem t a ch) else findInForest p ch
/-- Preorder search of a forest in document order. -/
def findInForest (p : Xml → Bool) : XmlForest → Option Xml
  | .nil => none
  | .cons x xs =>
    match findInTree p x with
    | some r => some r
    | none => findInForest p xs
end

mutual
/-- Replace the first preorder node satisfying `p` by its `f`-image
(in-place mutation of the element `find` returned). -/
def updTree (p : Xml → Bool) (f : Xml → Xml) : Xml → Option Xml
  | .elem t a ch =>
    if p (.elem t a ch) then some (f (.elem t a ch))
    else (updForest p f ch).map (fun ch' => .elem t a ch')
def updForest (p : Xml → Bool) (f : Xml → Xml) : XmlForest → Option XmlForest
  | .nil => none
  | .cons x xs =>
    match updTree p f x with
    | some x' => some (.cons x' xs)
    | none => (updForest p f xs).map (fun xs' => .cons x xs')
end

/-- `root.find(".//...")`: descendant search (the root itself is excluded). -/
def findStyleDesc (p : Xml → Bool) (root : Xml) : Option Xml := findInForest p root.children

/-- Mutation of the first descendant satisfying `p`. -/
def updateFirstDesc (p : Xml → Bool) (f : Xml → Xml) (root : Xml) : Xml :=
  match updForest p f root.children with
  | some ch' => Xml.elem root.tag root.attrs ch'
  | none => root

/-- The XPath filter `w:style[@w:styleId='sid']`. -/
def isStyleWithId (sid : String) (x : Xml) : Bool :=
  x.tag == wTag "style" &&
    (match getAttr x (wTag "styleId") with
     | some v => v == sid
     | none => false)

/-- HtmlToDocxConverter._STYLE_IDS. -/
def STYLE_IDS : List String := ["Heading1", "Heading2", "Heading3", "Title"]

/-- HtmlToDocxConverter._DEFAULT_FONT_COLOR. -/
def DEFAULT_FONT_COLOR : String := "000000"

inductive PartContent where
  | bytes (bs : List Nat)
  | xmlPart (x : Xml)

/-- A DOCX package: part names with their contents, in archive order. -/
abbrev Package := List (String × PartContent)

def lookupPart : Package → String → Option PartContent
  | [], _ => none
  | (n, c) :: rest, name => if n == name then some c else lookupPart rest name

def setPart : Package → String → PartContent → Package
  | [], _, _ => []
  | (n, c) :: rest, name, content =>
    if n == name then (n, content) :: rest else (n, c) :: setPart rest name content

def stylesPartName : String := "word/styles.xml"

/-- One iteration of the style loop of `_force_heading_colors`: look up the
style by id; if absent skip, otherwise mutate it in place. -/
def patchStyleStep (colorHex : String) (r : Xml) (sid : String) : Xml :=
  match findStyleDesc (isStyleWithId sid) r with
  | none => r
  | some _ => updateFirstDesc (isStyleWithId sid) (update_style_color colorHex) r

/-- HtmlToDocxConverter._force_heading_colors: extract the package, patch the
style-definitions part if present, and atomically replace the package.  All
mutations act on a scratch copy; the package is replaced only by the final
atomic move, so a failure (modelled as `Except.error`, e.g. the styles part
not being well-formed XML) leaves the package untouched. -/
def force_heading_colors (pkg : Package) (colorHex : String) : Except Unit Package :=
  match lookupPart pkg stylesPartName with
  | none => .ok pkg
  | some (.bytes _) => .error ()
  | some (.xmlPart root) =>
    .ok (setPart pkg stylesPartName (.xmlPart (STYLE_IDS.foldl (patchStyleStep colorHex) root)))

/-- HtmlToDocxConverter._apply_style_overrides: best-effort, absorbing any
failure and keeping the document as is. -/
def apply_style_overrides (pkg : Package) : Package :=
  match force_heading_colors pkg DEFAULT_FONT_COLOR with
  | .ok p => p
  | .error _ => pkg

/-- C7.  The style patch is best-effort and non-fatal: if the
style-definitions part is missing, the operation is a no-op that reports
success, and whenever any step of the patch fails, the caller-facing
operation absorbs the failure and the package is left identical to its
pre-patch state. -/
theorem c7_style_patch_non_fatal :
    (∀ pkg : Package, lookupPart pkg stylesPartName = none →
      force_heading_colors pkg DEFAULT_FONT_COLOR = .ok pkg ∧ apply_style_overrides pkg = pkg) ∧
    (∀ (pkg : Package) (e : Unit), force_heading_colors pkg DEFAULT_FONT_COLOR = .error e →
      apply_style_overrides pkg = pkg) := by
  constructor
  · intro pkg h
    have hok : force_heading_colors pkg DEFAULT_FONT_COLOR = .ok pkg := by
      unfold force_heading_colors
      rw [h]
    exact ⟨hok, by unfold apply_style_overrides; rw [hok]⟩
  · intro pkg e h
    unfold apply_style_overrides
    rw [h]

/-- C7, witness: a package without a styles part is untouched, and a package
whose styles part fails to parse is also untouched. -/
theorem c7_style_patch_non_fatal_witness :
    (lookupPart [("word/document.xml", PartContent.bytes [1, 2])] stylesPartName = none ∧
      force_heading_colors [("word/document.xml", PartContent.bytes [1, 2])] DEFAULT_FONT_COLOR =
        .ok [("word/document.xml", PartContent.bytes [1, 2])] ∧
      apply_style_overrides [("word/document.xml", PartContent.bytes [1, 2])] =
        [("word/document.xml", PartContent.bytes [1, 2])]) ∧
    (force_heading_colors [(stylesPartName, PartContent.bytes [0])] DEFAULT_FONT_COLOR =
        .error () ∧
      apply_style_overrides [(stylesPartName, PartContent.bytes [0])] =
        [(stylesPartName, PartContent.bytes [0])]) :=
  ⟨⟨by rfl,
    (c7_style_patch_non_fatal.1 [("word/document.xml", PartContent.bytes [1, 2])] (by rfl)).1,
    (c7_style_patch_non_fatal.1 [("word/document.xml", PartContent.bytes [1, 2])] (by rfl)).2⟩,
   ⟨by rfl, c7_style_patch_non_fatal.2 [(stylesPartName, PartContent.bytes [0])] () (by rfl)⟩⟩

/-!
## Claim C10: the entity-promotion heuristic
-/

/-- Python `bytes.lower()` on one byte (ASCII letters only). -/
def lowerByte (b : Nat) : Nat := if 65 ≤ b ∧ b ≤ 90 then b + 32 else b

def isPrefixB : List Nat → List Nat → Bool
  | [], _ => true
  | _ :: _, [] => false
  | p :: ps, c :: cs => p == c && isPrefixB ps cs

def containsB : List Nat → List Nat → Bool
  | s, pat =>
    if isPrefixB pat s then true
    else match s with
      | [] => false
      | _ :: rest => containsB rest pat

/-- HtmlToDocxConverter._should_promote_entities: lowercase the first 2048
bytes and test for both `&lt;` and `&gt;`. -/
def should_promote_entities (payload : List Nat) : Bool :=
  containsB ((payload.take 2048).map lowerByte) (utf8Encode (strL "&lt;")) &&
  containsB ((payload.take 2048).map lowerByte) (utf8Encode (strL "&gt;"))

/-- C10.  Automatic entity promotion is enabled iff the first 2048 bytes of
the payload, lowercased, contain both `&lt;` and `&gt;`; the decision depends
only on the first 2048 bytes, so entities appearing only later never trigger
it and payloads agreeing on their first 2048 bytes get the same decision. -/
theorem c10_promotion_prefix_decision :
    (∀ p : List Nat, should_promote_entities p =
      (containsB ((p.take 2048).map lowerByte) (utf8Encode (strL "&lt;")) &&
       containsB ((p.take 2048).map lowerByte) (utf8Encode (strL "&gt;")))) ∧
    (∀ p : List Nat, should_promote_entities p = should_promote_entities (p.take 2048)) ∧
    (∀ p q : List Nat, p.take 2048 = q.take 2048 →
      should_promote_entities p = should_promote_entities q) := by
  refine ⟨fun p => rfl, fun p => ?_, fun p q h => ?_⟩
  · unfold should_promote_entities
    rw [List.take_take]
    norm_num
  · unfold should_promote_entities
    rw [h]

/-- C10, witness: two payloads longer than 2048 bytes that agree on the
prefix but differ afterwards receive the same decision. -/
theorem c10_promotion_prefix_decision_witness :
    (List.replicate 2048 97 ++ utf8Encode (strL "&lt;&gt;")).take 2048 =
      (List.replicate 2048 97 ++ [122]).take 2048 ∧
    should_promote_entities (List.replicate 2048 97 ++ utf8Encode (strL "&lt;&gt;")) =
      should_promote_entities (List.replicate 2048 97 ++ [122]) := by
  have h : (List.replicate 2048 97 ++ utf8Encode (strL "&lt;&gt;")).take 2048 =
      (List.replicate 2048 97 ++ [122]).take 2048 := by
    rw [List.take_append_of_le_length (by simp), List.take_append_of_le_length (by simp)]
  exact ⟨h, c10_promotion_prefix_decision.2.2 _ _ h⟩

/-!
## Verification of the style patch (claim C6)
-/

/-- The `w:color` child of a run-properties element carries the forced colour
and no theme attributes. -/
def colorForced (colorHex : String) (parent : Xml) : Bool :=
  match findChildF (wTag "color") parent.children with
  | some col =>
    (getAttr col (wTag "val") == some colorHex) &&
    (getAttr col (wTag "themeColor") == none) &&
    (getAttr col (wTag "themeTint") == none) &&
    (getAttr col (wTag "themeShade") == none)
  | none => false

/-- A style definition carries the forced colour both in its
paragraph-properties run properties and in its style-level run properties. -/
def stylePatched (colorHex : String) (style : Xml) : Bool :=
  (match findChildF (wTag "pPr") style.children with
   | some pPr =>
     match findChildF (wTag "rPr") pPr.children with
     | some rPr => colorForced colorHex rPr
     | none => false
   | none => false) &&
  (match findChildF (wTag "rPr") style.children with
   | some rPr => colorForced colorHex rPr
   | none => false)

mutual
/-- No `w:style` element in the subtree (the node included). -/
def styleFreeT : Xml → Bool
  | .elem t _ ch => !(t == wTag "style") && styleFreeF ch
def styleFreeF : XmlForest → Bool
  | .nil => true
  | .cons x xs => styleFreeT x && styleFreeF xs
end

/-- Every node of the forest has a style-free subtree below it (styles can
appear only at the top level). -/
def childrenDeepFree : XmlForest → Bool
  | .nil => true
  | .cons x xs => styleFreeF x.children && childrenDeepFree xs

/-- The OOXML well-formedness shape of a styles part: `w:style` elements are
direct children of the root and are never nested inside other elements. -/
def shallowStyles (root : Xml) : Bool := childrenDeepFree root.children

/-- Top-level-only search in a forest. -/
def listFindF (p : Xml → Bool) : XmlForest → Option Xml
  | .nil => none
  | .cons x xs => if p x then some x else listFindF p xs

/-- Top-level-only replacement of the first match in a forest. -/
def listReplF (p : Xml → Bool) (f : Xml → Xml) : XmlForest → Option XmlForest
  | .nil => none
  | .cons x xs =>
    if p x then some (.cons (f x) xs)
    else (listReplF p f xs).map (fun xs' => .cons x xs')

theorem attrLookup_set_same (k v : String) : ∀ l, attrLookup (attrSet l k v) k = some v
  | [] => by simp [attrSet, attrLookup]
  | (k0, v0) :: rest => by
    by_cases h : k0 = k
    · simp [attrSet, h, attrLookup]
    · simp [attrSet, h, attrLookup, attrLookup_set_same k v rest]

theorem attrLookup_pop_same (k : String) : ∀ l, attrLookup (attrPop l k) k = none
  | [] => by simp [attrPop, attrLookup]
  | (k0, v0) :: rest => by
    by_cases h : k0 = k
    · simp [attrPop, h, attrLookup_pop_same k rest]
    · simp [attrPop, attrLookup, h, attrLookup_pop_same k rest]

theorem attrLookup_pop_other {k k' : String} (h : k' ≠ k) :
    ∀ l, attrLookup (attrPop l k) k' = attrLookup l k'
  | [] => by simp [attrPop]
  | (k0, v0) :: rest => by
    by_cases h0 : k0 = k
    · have hne : k ≠ k' := fun hc => h hc.symm
      simp [attrPop, h0, attrLookup, hne, attrLookup_pop_other h rest]
    · by_cases h1 : k0 = k'
      · simp [attrPop, h0, attrLookup, h1, h]
      · simp [attrPop, h0, attrLookup, h1, attrLookup_pop_other h rest]

theorem setAttr_tag (x : Xml) (k v : String) : (setAttr x k v).tag = x.tag := by
  cases x; rfl

theorem popAttr_tag (x : Xml) (k : String) : (popAttr x k).tag = x.tag := by
  cases x; rfl

theorem forceColorAttrs_tag (colorHex : String) (col : Xml) :
    (forceColorAttrs colorHex col).tag = col.tag := by
  cases col; rfl

theorem forceColorAttrs_spec (colorHex : String) (col : Xml) :
    getAttr (forceColorAttrs colorHex col) (wTag "val") = some colorHex ∧
    getAttr (forceColorAttrs colorHex col) (wTag "themeColor") = none ∧
    getAttr (forceColorAttrs colorHex col) (wTag "themeTint") = none ∧
    getAttr (forceColorAttrs colorHex col) (wTag "themeShade") = none := by
  cases col with
  | elem t a ch =>
    unfold forceColorAttrs getAttr
    refine ⟨?_, ?_, ?_, ?_⟩
    · show attrLookup (attrPop (attrPop (attrPop (attrSet a (wTag "val") colorHex)
        (wTag "themeColor")) (wTag "themeTint")) (wTag "themeShade")) (wTag "val") = some colorHex
      rw [attrLookup_pop_other (by decide), attrLookup_pop_other (by decide),
        attrLookup_pop_other (by decide), attrLookup_set_same]
    · show attrLookup (attrPop (attrPop (attrPop (attrSet a (wTag "val") colorHex)
        (wTag "themeColor")) (wTag "themeTint")) (wTag "themeShade")) (wTag "themeColor") = none
      rw [attrLookup_pop_other (by decide), attrLookup_pop_other (by decide),
        attrLookup_pop_same]
    · show attrLookup (attrPop (attrPop (attrPop (attrSet a (wTag "val") colorHex)
        (wTag "themeColor")) (wTag "themeTint")) (wTag "themeShade")) (wTag "themeTint") = none
      rw [attrLookup_pop_other (by decide), attrLookup_pop_same]
    · show attrLookup (attrPop (attrPop (attrPop (attrSet a (wTag "val") colorHex)
        (wTag "themeColor")) (wTag "themeTint")) (wTag "themeShade")) (wTag "themeShade") = none
      rw [attrLookup_pop_same]

theorem findChildF_append_some {t : String} {x e : Xml} :
    ∀ ch : XmlForest, findChildF t ch = some x →
      findChildF t (forestAppend ch e) = some x
  | .nil => by intro h; simp [findChildF] at h
  | .cons y ys => by
    intro h
    by_cases hy : (y.tag == t) = true
    · simp only [findChildF, hy, if_true] at h ⊢
      simp [forestAppend, findChildF, hy]
      simpa using h
    · simp only [findChildF, hy, Bool.false_eq_true, if_false] at h
      simp only [forestAppend, findChildF, hy, Bool.false_eq_true, if_false]
      exact findChildF_append_some ys h

theorem findChildF_append_none {t : String} {e : Xml} (he : (e.tag == t) = true) :
    ∀ ch : XmlForest, findChildF t ch = none →
      findChildF t (forestAppend ch e) = some e
  | .nil => by intro _; simp [forestAppend, findChildF, he]
  | .cons y ys => by
    intro h
    by_cases hy : (y.tag == t) = true
    · simp [findChildF, hy] at h
    · simp only [findChildF, hy, Bool.false_eq_true, if_false] at h
      simp only [forestAppend, findChildF, hy, Bool.false_eq_true, if_false]
      exact findChildF_append_none he ys h

theorem findChildF_append_ne {t : String} {e : Xml} (he : (e.tag == t) = false) :
    ∀ ch : XmlForest, findChildF t (forestAppend ch e) = findChildF t ch
  | .nil => by simp [forestAppend, findChildF, he]
  | .cons y ys => by
    by_cases hy : (y.tag == t) = true
    · simp [forestAppend, findChildF, hy]
    · simp only [forestAppend, findChildF, hy, Bool.false_eq_true, if_false]
      exact findChildF_append_ne he ys

theorem findChildF_mapFirst {t : String} {f : Xml → Xml} (hf : ∀ y, (f y).tag = y.tag) :
    ∀ ch : XmlForest, findChildF t (mapFirstChildF t f ch) = (findChildF t ch).map f
  | .nil => by simp [mapFirstChildF, findChildF]
  | .cons y ys => by
    by_cases hy : (y.tag == t) = true
    · have hft : ((f y).tag == t) = true := by rw [hf y]; exact hy
      simp [mapFirstChildF, hy, findChildF, hft]
    · simp only [mapFirstChildF, hy, Bool.false_eq_true, if_false, findChildF]
      exact findChildF_mapFirst hf ys

theorem findChildF_mapFirst_other {t t' : String} {f : Xml → Xml}
    (hf : ∀ y, (f y).tag = y.tag) (hne : t' ≠ t) :
    ∀ ch : XmlForest, findChildF t' (mapFirstChildF t f ch) = findChildF t' ch
  | .nil => by simp [mapFirstChildF]
  | .cons y ys => by
    by_cases hy : (y.tag == t) = true
    · have hyt : (y.tag == t') = false := by
        have hyt' : y.tag = t := by simpa using hy
        rw [hyt']
        simp only [beq_eq_false_iff_ne, ne_eq]
        exact fun hc => hne hc.symm
      have hft : ((f y).tag == t') = false := by rw [hf y]; exact hyt
      simp only [mapFirstChildF, hy, if_true, findChildF, hyt, hft,
        Bool.false_eq_true, if_false]
    · simp only [mapFirstChildF, hy, Bool.false_eq_true, if_false, findChildF]
      by_cases hy' : (y.tag == t') = true
      · simp [hy']
      · simp only [hy', Bool.false_eq_true, if_false]
        exact findChildF_mapFirst_other hf hne ys

theorem ensureColor_tag (colorHex : String) (p : Xml) :
    (ensureColor colorHex p).tag = p.tag := by
  unfold ensureColor
  cases findChildF (wTag "color") p.children <;> (cases p; rfl)

theorem ensureColor_attrs (colorHex : String) (p : Xml) :
    (ensureColor colorHex p).attrs = p.attrs := by
  unfold ensureColor
  cases findChildF (wTag "color") p.children <;> (cases p; rfl)

theorem colorForced_ensureColor (colorHex : String) (p : Xml) :
    colorForced colorHex (ensureColor colorHex p) = true := by
  unfold colorForced
  cases hf : findChildF (wTag "color") p.children with
  | none =>
    have hfind : findChildF (wTag "color") (ensureColor colorHex p).children =
        some (Xml.elem (wTag "color") [(wTag "val", colorHex)] XmlForest.nil) := by
      unfold ensureColor
      rw [hf]
      exact findChildF_append_none (by simp [Xml.tag]) p.children hf
    rw [hfind]
    simp only [getAttr, attrLookup, Xml.attrs,
      show (wTag "val" == wTag "val") = true from by decide,
      show (wTag "val" == wTag "themeColor") = false from by decide,
      show (wTag "val" == wTag "themeTint") = false from by decide,
      show (wTag "val" == wTag "themeShade") = false from by decide]
    simp
  | some col =>
    have hfind : findChildF (wTag "color") (ensureColor colorHex p).children =
        some (forceColorAttrs colorHex col) := by
      unfold ensureColor
      rw [hf]
      show findChildF (wTag "color")
        (mapFirstChildF (wTag "color") (forceColorAttrs colorHex) p.children) = _
      rw [findChildF_mapFirst (forceColorAttrs_tag colorHex), hf]
      rfl
    rw [hfind]
    obtain ⟨h1, h2, h3, h4⟩ := forceColorAttrs_spec colorHex col
    simp [h1, h2, h3, h4]

theorem mapChild_tag (t : String) (f : Xml → Xml) (x : Xml) : (mapChild t f x).tag = x.tag := by
  cases x; rfl

theorem mapChild_attrs (t : String) (f : Xml → Xml) (x : Xml) :
    (mapChild t f x).attrs = x.attrs := by
  cases x; rfl

theorem appendChildIfMissing_tag (t : String) (x : Xml) :
    (appendChildIfMissing t x).tag = x.tag := by
  unfold appendChildIfMissing
  cases findChildF t x.children <;> (cases x; rfl)

theorem appendChildIfMissing_attrs (t : String) (x : Xml) :
    (appendChildIfMissing t x).attrs = x.attrs := by
  unfold appendChildIfMissing
  cases findChildF t x.children <;> (cases x; rfl)

theorem findChild_appendIfMissing_same (t : String) (x : Xml) :
    findChildF t (appendChildIfMissing t x).children =
      some ((findChildF t x.children).getD (Xml.elem t [] XmlForest.nil)) := by
  unfold appendChildIfMissing
  cases hf : findChildF t x.children with
  | some y =>
    show findChildF t x.children = some ((some y).getD (Xml.elem t [] XmlForest.nil))
    rw [hf]
    rfl
  | none =>
    show findChildF t (forestAppend x.children (Xml.elem t [] XmlForest.nil)) =
      some ((none : Option Xml).getD (Xml.elem t [] XmlForest.nil))
    exact findChildF_append_none (by simp [Xml.tag]) x.children hf

theorem findChild_appendIfMissing_other {t t' : String} (hne : t' ≠ t) (x : Xml) :
    findChildF t' (appendChildIfMissing t x).children = findChildF t' x.children := by
  unfold appendChildIfMissing
  cases hf : findChildF t x.children with
  | some y => rfl
  | none =>
    show findChildF t' (forestAppend x.children (Xml.elem t [] XmlForest.nil)) =
      findChildF t' x.children
    exact findChildF_append_ne
      (by simp only [Xml.tag, beq_eq_false_iff_ne, ne_eq]; exact fun hc => hne hc.symm)
      x.children

theorem findChild_mapChild_same {t : String} {f : Xml → Xml} (hf : ∀ y, (f y).tag = y.tag)
    (x : Xml) : findChildF t (mapChild t f x).children = (findChildF t x.children).map f :=
  findChildF_mapFirst hf x.children

theorem findChild_mapChild_other {t t' : String} {f : Xml → Xml}
    (hf : ∀ y, (f y).tag = y.tag) (hne : t' ≠ t) (x : Xml) :
    findChildF t' (mapChild t f x).children = findChildF t' x.children :=
  findChildF_mapFirst_other hf hne x.children

theorem patchRunProps_tag (c : String) (y : Xml) : (patchRunProps c y).tag = y.tag := by
  unfold patchRunProps
  rw [mapChild_tag, appendChildIfMissing_tag]

theorem findChild_patchRunProps_rPr (c : String) (p : Xml) :
    findChildF (wTag "rPr") (patchRunProps c p).children =
      some (ensureColor c
        ((findChildF (wTag "rPr") p.children).getD (Xml.elem (wTag "rPr") [] XmlForest.nil))) := by
  unfold patchRunProps
  rw [findChild_mapChild_same (fun y => ensureColor_tag c y),
    findChild_appendIfMissing_same]
  rfl

theorem update_style_color_tag (c : String) (s : Xml) :
    (update_style_color c s).tag = s.tag := by
  unfold update_style_color
  rw [mapChild_tag, appendChildIfMissing_tag, mapChild_tag, appendChildIfMissing_tag]

theorem update_style_color_attrs (c : String) (s : Xml) :
    (update_style_color c s).attrs = s.attrs := by
  unfold update_style_color
  rw [mapChild_attrs, appendChildIfMissing_attrs, mapChild_attrs, appendChildIfMissing_attrs]

theorem isStyle_update (sid c : String) (x : Xml) :
    isStyleWithId sid (update_style_color c x) = isStyleWithId sid x := by
  unfold isStyleWithId getAttr
  rw [update_style_color_tag, update_style_color_attrs]

/-- Every style processed by `_update_style_color` ends up with the forced
colour on both the paragraph-level and the style-level run properties, with
no theme attributes left on either colour element. -/
theorem stylePatched_update (c : String) (s : Xml) :
    stylePatched c (update_style_color c s) = true := by
  have hA : findChildF (wTag "pPr") (update_style_color c s).children =
      some (patchRunProps c
        ((findChildF (wTag "pPr") (appendChildIfMissing (wTag "pPr") s).children).getD
          (Xml.elem (wTag "pPr") [] XmlForest.nil))) := by
    unfold update_style_color
    rw [findChild_mapChild_other (fun y => ensureColor_tag c y) (by decide),
      findChild_appendIfMissing_other (by decide),
      findChild_mapChild_same (fun y => patchRunProps_tag c y)]
    rw [findChild_appendIfMissing_same]
    rfl
  have hB : findChildF (wTag "rPr") (update_style_color c s).children =
      some (ensureColor c
        ((findChildF (wTag "rPr")
          (mapChild (wTag "pPr") (patchRunProps c)
            (appendChildIfMissing (wTag "pPr") s)).children).getD
          (Xml.elem (wTag "rPr") [] XmlForest.nil))) := by
    unfold update_style_color
    rw [findChild_mapChild_same (fun y => ensureColor_tag c y),
      findChild_appendIfMissing_same]
    rfl
  unfold stylePatched
  rw [hA, hB]
  simp only [findChild_patchRunProps_rPr, colorForced_ensureColor, Bool.and_self]

theorem styleFreeT_forceColorAttrs (c : String) (col : Xml) :
    styleFreeT (forceColorAttrs c col) = styleFreeT col := by
  cases col; rfl

theorem styleFreeF_append (e : Xml) :
    ∀ ch : XmlForest, styleFreeF (forestAppend ch e) = (styleFreeF ch && styleFreeT e)
  | .nil => by simp [forestAppend, styleFreeF]
  | .cons x xs => by
    simp [forestAppend, styleFreeF, styleFreeF_append e xs, Bool.and_assoc]

theorem styleFreeF_mapFirst {t : String} {f : Xml → Xml}
    (hf : ∀ y, styleFreeT y = true → styleFreeT (f y) = true) :
    ∀ ch : XmlForest, styleFreeF ch = true → styleFreeF (mapFirstChildF t f ch) = true
  | .nil => by intro h; exact h
  | .cons x xs => by
    intro h
    simp only [styleFreeF, Bool.and_eq_true] at h
    by_cases hy : (x.tag == t) = true
    · simp only [mapFirstChildF, hy, if_true, styleFreeF, Bool.and_eq_true]
      exact ⟨hf x h.1, h.2⟩
    · simp only [mapFirstChildF, hy, Bool.false_eq_true, if_false, styleFreeF, Bool.and_eq_true]
      exact ⟨h.1, styleFreeF_mapFirst hf xs h.2⟩

theorem styleFreeT_mapChild {t : String} {f : Xml → Xml}
    (hf : ∀ y, styleFreeT y = true → styleFreeT (f y) = true) (x : Xml)
    (h : styleFreeT x = true) : styleFreeT (mapChild t f x) = true := by
  cases x with
  | elem tg a ch =>
    simp only [styleFreeT, Bool.and_eq_true] at h
    simp only [mapChild, Xml.tag, Xml.attrs, Xml.children, styleFreeT, Bool.and_eq_true]
    exact ⟨h.1, styleFreeF_mapFirst hf ch h.2⟩

theorem styleFreeT_appendChildIfMissing {t : String} (ht : (t == wTag "style") = false)
    (x : Xml) (h : styleFreeT x = true) : styleFreeT (appendChildIfMissing t x) = true := by
  unfold appendChildIfMissing
  cases findChildF t x.children with
  | some y => exact h
  | none =>
    cases x with
    | elem tg a ch =>
      simp only [styleFreeT, Bool.and_eq_true] at h
      simp only [styleFreeT, Xml.children, styleFreeF_append, Bool.and_eq_true]
      refine ⟨h.1, h.2, ?_⟩
      simp [styleFreeT, styleFreeF, ht]

theorem styleFreeT_ensureColor (c : String) (p : Xml) (h : styleFreeT p = true) :
    styleFreeT (ensureColor c p) = true := by
  unfold ensureColor
  cases findChildF (wTag "color") p.children with
  | some col =>
    cases p with
    | elem tg a ch =>
      simp only [styleFreeT, Bool.and_eq_true] at h ⊢
      refine ⟨h.1, ?_⟩
      exact styleFreeF_mapFirst (fun y hy => by rw [styleFreeT_forceColorAttrs]; exact hy)
        ch h.2
  | none =>
    cases p with
    | elem tg a ch =>
      simp only [styleFreeT, Bool.and_eq_true] at h
      simp only [styleFreeT, Xml.children, styleFreeF_append, Bool.and_eq_true]
      refine ⟨h.1, h.2, ?_⟩
      simp only [styleFreeT, styleFreeF]
      decide

theorem styleFreeT_patchRunProps (c : String) (y : Xml) (h : styleFreeT y = true) :
    styleFreeT (patchRunProps c y) = true := by
  unfold patchRunProps
  exact styleFreeT_mapChild (fun z hz => styleFreeT_ensureColor c z hz) _
    (styleFreeT_appendChildIfMissing (by decide) y h)

theorem styleFreeF_appendChildIfMissing_children {t : String}
    (ht : (t == wTag "style") = false) (x : Xml) (h : styleFreeF x.children = true) :
    styleFreeF (appendChildIfMissing t x).children = true := by
  unfold appendChildIfMissing
  cases findChildF t x.children with
  | some y => exact h
  | none =>
    show styleFreeF (forestAppend x.children (Xml.elem t [] XmlForest.nil)) = true
    rw [styleFreeF_append]
    simp only [Bool.and_eq_true]
    exact ⟨h, by simp [styleFreeT, styleFreeF, ht]⟩

theorem styleFreeF_mapChild_children {t : String} {f : Xml → Xml}
    (hf : ∀ y, styleFreeT y = true → styleFreeT (f y) = true) (x : Xml)
    (h : styleFreeF x.children = true) : styleFreeF (mapChild t f x).children = true := by
  show styleFreeF (mapFirstChildF t f x.children) = true
  exact styleFreeF_mapFirst hf x.children h

/-- `_update_style_color` never introduces a `w:style` element below the
style it patches. -/
theorem styleFreeF_update_children (c : String) (s : Xml)
    (h : styleFreeF s.children = true) :
    styleFreeF (update_style_color c s).children = true := by
  unfold update_style_color
  apply styleFreeF_mapChild_children (fun z hz => styleFreeT_ensureColor c z hz)
  apply styleFreeF_appendChildIfMissing_children (by decide)
  apply styleFreeF_mapChild_children (fun z hz => styleFreeT_patchRunProps c z hz)
  exact styleFreeF_appendChildIfMissing_children (by decide) s h

theorem findInForest_styleFree {p : Xml → Bool} (hp : ∀ x, p x = true → x.tag = wTag "style") :
    ∀ fo : XmlForest, styleFreeF fo = true → findInForest p fo = none := by
  refine XmlForest.rec
    (motive_1 := fun x => styleFreeT x = true → findInTree p x = none)
    (motive_2 := fun fo => styleFreeF fo = true → findInForest p fo = none) ?_ ?_ ?_
  · intro t a ch ih h
    simp only [styleFreeT, Bool.and_eq_true, Bool.not_eq_eq_eq_not, Bool.not_true] at h
    have hpx : p (Xml.elem t a ch) = false := by
      cases hv : p (Xml.elem t a ch) with
      | false => rfl
      | true =>
        have := hp _ hv
        simp only [Xml.tag] at this
        rw [this] at h
        simp at h
    simp only [findInTree, hpx, Bool.false_eq_true, if_false]
    exact ih h.2
  · intro _; rfl
  · intro x xs ihx ihxs h
    simp only [styleFreeF, Bool.and_eq_true] at h
    simp only [findInForest]
    rw [ihx h.1]
    exact ihxs h.2

theorem findInTree_styleFree {p : Xml → Bool} (hp : ∀ x, p x = true → x.tag = wTag "style")
    (x : Xml) (h : styleFreeT x = true) : findInTree p x = none := by
  cases x with
  | elem t a ch =>
    simp only [styleFreeT, Bool.and_eq_true, Bool.not_eq_eq_eq_not, Bool.not_true] at h
    have hpx : p (Xml.elem t a ch) = false := by
      cases hv : p (Xml.elem t a ch) with
      | false => rfl
      | true =>
        have := hp _ hv
        simp only [Xml.tag] at this
        rw [this] at h
        simp at h
    simp only [findInTree, hpx, Bool.false_eq_true, if_false]
    exact findInForest_styleFree hp ch h.2

theorem updForest_styleFree {p : Xml → Bool} {f : Xml → Xml}
    (hp : ∀ x, p x = true → x.tag = wTag "style") :
    ∀ fo : XmlForest, styleFreeF fo = true → updForest p f fo = none := by
  refine XmlForest.rec
    (motive_1 := fun x => styleFreeT x = true → updTree p f x = none)
    (motive_2 := fun fo => styleFreeF fo = true → updForest p f fo = none) ?_ ?_ ?_
  · intro t a ch ih h
    simp only [styleFreeT, Bool.and_eq_true, Bool.not_eq_eq_eq_not, Bool.not_true] at h
    have hpx : p (Xml.elem t a ch) = false := by
      cases hv : p (Xml.elem t a ch) with
      | false => rfl
      | true =>
        have := hp _ hv
        simp only [Xml.tag] at this
        rw [this] at h
        simp at h
    simp only [updTree, hpx, Bool.false_eq_true, if_false]
    rw [ih h.2]
    rfl
  · intro _; rfl
  · intro x xs ihx ihxs h
    simp only [styleFreeF, Bool.and_eq_true] at h
    simp only [updForest]
    rw [ihx h.1, ihxs h.2]
    rfl

theorem updTree_styleFree {p : Xml → Bool} {f : Xml → Xml}
    (hp : ∀ x, p x = true → x.tag = wTag "style")
    (x : Xml) (h : styleFreeT x = true) : updTree p f x = none := by
  cases x with
  | elem t a ch =>
    simp only [styleFreeT, Bool.and_eq_true, Bool.not_eq_eq_eq_not, Bool.not_true] at h
    have hpx : p (Xml.elem t a ch) = false := by
      cases hv : p (Xml.elem t a ch) with
      | false => rfl
      | true =>
        have := hp _ hv
        simp only [Xml.tag] at this
        rw [this] at h
        simp at h
    simp only [updTree, hpx, Bool.false_eq_true, if_false]
    rw [updForest_styleFree hp ch h.2]
    rfl

theorem findInForest_shallow {p : Xml → Bool} (hp : ∀ x, p x = true → x.tag = wTag "style") :
    ∀ fo : XmlForest, childrenDeepFree fo = true → findInForest p fo = listFindF p fo
  | .nil => by intro _; rfl
  | .cons x xs => by
    intro h
    simp only [childrenDeepFree, Bool.and_eq_true] at h
    have hx : findInTree p x = if p x then some x else none := by
      cases x with
      | elem t a ch =>
        simp only [findInTree]
        by_cases hpx : p (Xml.elem t a ch) = true
        · simp [hpx]
        · simp only [hpx, Bool.false_eq_true, if_false, if_neg]
          exact findInForest_styleFree hp ch (by simpa [Xml.children] using h.1)
    simp only [findInForest, listFindF, hx]
    by_cases hpx : p x = true
    · simp [hpx]
    · simp only [hpx, Bool.false_eq_true, if_false]
      exact findInForest_shallow hp xs h.2

theorem updForest_shallow {p : Xml → Bool} {f : Xml → Xml}
    (hp : ∀ x, p x = true → x.tag = wTag "style") :
    ∀ fo : XmlForest, childrenDeepFree fo = true → updForest p f fo = listReplF p f fo
  | .nil => by intro _; rfl
  | .cons x xs => by
    intro h
    simp only [childrenDeepFree, Bool.and_eq_true] at h
    have hx : updTree p f x = if p x then some (f x) else none := by
      cases x with
      | elem t a ch =>
        simp only [updTree]
        by_cases hpx : p (Xml.elem t a ch) = true
        · simp [hpx]
        · simp only [hpx, Bool.false_eq_true, if_false, if_neg]
          rw [updForest_styleFree hp ch (by simpa [Xml.children] using h.1)]
          rfl
    simp only [updForest, listReplF, hx]
    by_cases hpx : p x = true
    · simp [hpx]
    · simp only [hpx, Bool.false_eq_true, if_false]
      rw [updForest_shallow hp xs h.2]

theorem listReplF_none {p : Xml → Bool} {f : Xml → Xml} :
    ∀ fo : XmlForest, listFindF p fo = none → listReplF p f fo = none
  | .nil => by intro _; rfl
  | .cons x xs => by
    intro h
    by_cases hpx : p x = true
    · simp [listFindF, hpx] at h
    · simp only [listFindF, hpx, Bool.false_eq_true, if_false] at h
      simp only [listReplF, hpx, Bool.false_eq_true, if_false]
      rw [listReplF_none xs h]
      rfl

theorem listReplF_some {p : Xml → Bool} {f : Xml → Xml} :
    ∀ (fo : XmlForest) (s : Xml), listFindF p fo = some s →
      ∃ fo', listReplF p f fo = some fo'
  | .nil => by intro s h; simp [listFindF] at h
  | .cons x xs => by
    intro s h
    by_cases hpx : p x = true
    · exact ⟨.cons (f x) xs, by simp [listReplF, hpx]⟩
    · simp only [listFindF, hpx, Bool.false_eq_true, if_false] at h
      obtain ⟨fo', hfo'⟩ := listReplF_some (f := f) xs s h
      exact ⟨.cons x fo', by simp [listReplF, hpx, hfo']⟩

theorem listFindF_repl {p : Xml → Bool} {f : Xml → Xml} :
    ∀ (fo fo' : XmlForest) (s : Xml), p (f s) = true → listFindF p fo = some s →
      listReplF p f fo = some fo' → listFindF p fo' = some (f s)
  | .nil => by intro fo' s _ h; simp [listFindF] at h
  | .cons x xs => by
    intro fo' s hpf h hrep
    by_cases hpx : p x = true
    · simp only [listFindF, hpx, if_true, Option.some_inj] at h
      simp only [listReplF, hpx, if_true, Option.some_inj] at hrep
      subst h
      rw [← hrep]
      simp [listFindF, hpf]
    · simp only [listFindF, hpx, Bool.false_eq_true, if_false] at h
      simp only [listReplF, hpx, Bool.false_eq_true, if_false] at hrep
      cases hxs : listReplF p f xs with
      | none => rw [hxs] at hrep; exact Option.noConfusion hrep
      | some xs' =>
        rw [hxs] at hrep
        have hrep2 : XmlForest.cons x xs' = fo' := Option.some.inj hrep
        subst hrep2
        simp only [listFindF, hpx, Bool.false_eq_true, if_false]
        exact listFindF_repl xs xs' s hpf h hxs

theorem listFindF_repl_other {p p' : Xml → Bool} {f : Xml → Xml}
    (hd : ∀ x, p x = true → p' x = false)
    (hdf : ∀ x, p x = true → p' (f x) = false) :
    ∀ (fo fo' : XmlForest), listReplF p f fo = some fo' →
      listFindF p' fo' = listFindF p' fo
  | .nil => by intro fo' h; simp [listReplF] at h
  | .cons x xs => by
    intro fo' hrep
    by_cases hpx : p x = true
    · simp only [listReplF, hpx, if_true, Option.some_inj] at hrep
      subst hrep
      simp only [listFindF, hd x hpx, hdf x hpx, Bool.false_eq_true, if_false]
    · simp only [listReplF, hpx, Bool.false_eq_true, if_false] at hrep
      cases hxs : listReplF p f xs with
      | none => rw [hxs] at hrep; exact Option.noConfusion hrep
      | some xs' =>
        rw [hxs] at hrep
        have hrep2 : XmlForest.cons x xs' = fo' := Option.some.inj hrep
        subst hrep2
        simp only [listFindF]
        rw [listFindF_repl_other hd hdf xs xs' hxs]

theorem childrenDeepFree_repl {p : Xml → Bool} {f : Xml → Xml}
    (hsf : ∀ x, styleFreeF x.children = true → styleFreeF (f x).children = true) :
    ∀ (fo fo' : XmlForest), childrenDeepFree fo = true → listReplF p f fo = some fo' →
      childrenDeepFree fo' = true
  | .nil => by intro fo' _ h; simp [listReplF] at h
  | .cons x xs => by
    intro fo' hfree hrep
    simp only [childrenDeepFree, Bool.and_eq_true] at hfree
    by_cases hpx : p x = true
    · simp only [listReplF, hpx, if_true, Option.some_inj] at hrep
      subst hrep
      simp only [childrenDeepFree, Bool.and_eq_true]
      exact ⟨hsf x hfree.1, hfree.2⟩
    · simp only [listReplF, hpx, Bool.false_eq_true, if_false] at hrep
      cases hxs : listReplF p f xs with
      | none => rw [hxs] at hrep; exact Option.noConfusion hrep
      | some xs' =>
        rw [hxs] at hrep
        have hrep2 : XmlForest.cons x xs' = fo' := Option.some.inj hrep
        subst hrep2
        simp only [childrenDeepFree, Bool.and_eq_true]
        exact ⟨hfree.1, childrenDeepFree_repl hsf xs xs' hfree.2 hxs⟩

theorem isStyle_tag {sid : String} {x : Xml} (h : isStyleWithId sid x = true) :
    x.tag = wTag "style" := by
  unfold isStyleWithId at h
  simp only [Bool.and_eq_true, beq_iff_eq] at h
  exact h.1

theorem isStyle_disjoint {sid sid' : String} (hne : sid' ≠ sid) {x : Xml}
    (h : isStyleWithId sid x = true) : isStyleWithId sid' x = false := by
  unfold isStyleWithId at h ⊢
  simp only [Bool.and_eq_true, beq_iff_eq] at h
  cases hl : getAttr x (wTag "styleId") with
  | none => rw [hl] at h; exact absurd h.2 (by simp)
  | some v =>
    rw [hl] at h
    simp only [beq_iff_eq] at h
    simp only [hl, h.1, beq_iff_eq, beq_eq_false_iff_ne, ne_eq, Bool.and_eq_false_iff]
    right
    rw [h.2]
    exact fun hc => hne hc.symm

theorem listFindF_found {p : Xml → Bool} :
    ∀ (fo : XmlForest) (s : Xml), listFindF p fo = some s → p s = true
  | .nil => by intro s h; simp [listFindF] at h
  | .cons x xs => by
    intro s h
    by_cases hpx : p x = true
    · simp only [listFindF, hpx, if_true, Option.some_inj] at h
      subst h
      exact hpx
    · simp only [listFindF, hpx, Bool.false_eq_true, if_false] at h
      exact listFindF_found xs s h

/-- One loop iteration of `_force_heading_colors` on a well-formed styles
root: the processed style is mutated exactly once, every other style lookup
is untouched, and well-formedness is preserved. -/
theorem patchStyleStep_spec (c sid : String) (r : Xml) (hsh : shallowStyles r = true) :
    shallowStyles (patchStyleStep c r sid) = true ∧
    findStyleDesc (isStyleWithId sid) (patchStyleStep c r sid) =
      (findStyleDesc (isStyleWithId sid) r).map (update_style_color c) ∧
    (∀ sid', sid' ≠ sid → findStyleDesc (isStyleWithId sid') (patchStyleStep c r sid) =
      findStyleDesc (isStyleWithId sid') r) := by
  have hp : ∀ x, isStyleWithId sid x = true → x.tag = wTag "style" := fun x h => isStyle_tag h
  have hfind : findStyleDesc (isStyleWithId sid) r = listFindF (isStyleWithId sid) r.children :=
    findInForest_shallow hp r.children hsh
  cases hlf : listFindF (isStyleWithId sid) r.children with
  | none =>
    have hnone : findStyleDesc (isStyleWithId sid) r = none := by rw [hfind, hlf]
    have hstep : patchStyleStep c r sid = r := by
      unfold patchStyleStep
      rw [hnone]
    rw [hstep, hnone]
    exact ⟨hsh, rfl, fun _ _ => rfl⟩
  | some s =>
    have hsome : findStyleDesc (isStyleWithId sid) r = some s := by rw [hfind, hlf]
    obtain ⟨fo', hrepl⟩ :=
      listReplF_some (f := update_style_color c) r.children s hlf
    have hupd : updForest (isStyleWithId sid) (update_style_color c) r.children = some fo' := by
      rw [updForest_shallow hp r.children hsh, hrepl]
    have hstep : patchStyleStep c r sid = Xml.elem r.tag r.attrs fo' := by
      unfold patchStyleStep updateFirstDesc
      rw [hsome, hupd]
    have hfree' : childrenDeepFree fo' = true :=
      childrenDeepFree_repl (fun x hx => styleFreeF_update_children c x hx)
        r.children fo' hsh hrepl
    have hshallow' : shallowStyles (Xml.elem r.tag r.attrs fo') = true := hfree'
    refine ⟨by rw [hstep]; exact hshallow', ?_, ?_⟩
    · rw [hstep, hsome]
      show findInForest (isStyleWithId sid) fo' = some (update_style_color c s)
      rw [findInForest_shallow hp fo' hfree']
      exact listFindF_repl r.children fo' s
        (by rw [isStyle_update]; exact listFindF_found r.children s hlf) hlf hrepl
    · intro sid' hne
      rw [hstep]
      have h1 : findStyleDesc (isStyleWithId sid') (Xml.elem r.tag r.attrs fo') =
          listFindF (isStyleWithId sid') fo' :=
        findInForest_shallow (fun x h => isStyle_tag h) fo' hfree'
      have h2 : findStyleDesc (isStyleWithId sid') r =
          listFindF (isStyleWithId sid') r.children :=
        findInForest_shallow (fun x h => isStyle_tag h) r.children hsh
      rw [h1, h2]
      exact listFindF_repl_other (fun x hx => isStyle_disjoint hne hx)
        (fun x hx => by rw [isStyle_update]; exact isStyle_disjoint hne hx)
        r.children fo' hrepl

/-- The style loop of `_force_heading_colors` over a list of distinct style
ids: each style that is present is mutated by `_update_style_color` exactly
once, and well-formedness of the styles root is preserved. -/
theorem foldSteps_spec (c : String) :
    ∀ (ids : List String), ids.Nodup → ∀ (r : Xml), shallowStyles r = true →
      shallowStyles (ids.foldl (patchStyleStep c) r) = true ∧
      (∀ sid s, findStyleDesc (isStyleWithId sid) r = some s →
        findStyleDesc (isStyleWithId sid) (ids.foldl (patchStyleStep c) r) =
          some (if sid ∈ ids then update_style_color c s else s)) := by
  intro ids
  induction ids with
  | nil =>
    intro _ r hsh
    exact ⟨hsh, fun sid s h => by simpa using h⟩
  | cons id0 rest ih =>
    intro hnd r hsh
    have hnd' : rest.Nodup := (List.nodup_cons.mp hnd).2
    have hid0 : id0 ∉ rest := (List.nodup_cons.mp hnd).1
    obtain ⟨hsh1, hfind1, hother1⟩ := patchStyleStep_spec c id0 r hsh
    have ihr := ih hnd' (patchStyleStep c r id0) hsh1
    refine ⟨by simpa using ihr.1, ?_⟩
    intro sid s hs
    by_cases heq : sid = id0
    · subst heq
      have h1 : findStyleDesc (isStyleWithId sid) (patchStyleStep c r sid) =
          some (update_style_color c s) := by
        rw [hfind1, hs]
        rfl
      have h2 := ihr.2 sid (update_style_color c s) h1
      rw [if_neg (by exact fun hc => hid0 hc)] at h2
      simpa [List.mem_cons] using h2
    · have h1 : findStyleDesc (isStyleWithId sid) (patchStyleStep c r id0) = some s := by
        rw [hother1 sid heq]
        exact hs
      have h2 := ihr.2 sid s h1
      have hmem : (sid ∈ id0 :: rest) = (sid ∈ rest) := by
        simp [List.mem_cons, heq]
      simp only [List.foldl_cons]
      rw [h2]
      by_cases hin : sid ∈ rest
      · rw [if_pos hin, if_pos (by simp [List.mem_cons, hin])]
      · rw [if_neg hin, if_neg (by simp [List.mem_cons, heq, hin])]

theorem lookupPart_setPart_other {nm pn : String} (hne : nm ≠ pn) (v : PartContent) :
    ∀ pkg : Package, lookupPart (setPart pkg pn v) nm = lookupPart pkg nm
  | [] => rfl
  | (n, cont) :: rest => by
    by_cases hn : (n == pn) = true
    · have : (n == nm) = false := by
        have hnp : n = pn := by simpa using hn
        rw [hnp]
        simp only [beq_eq_false_iff_ne, ne_eq]
        exact fun hc => hne hc.symm
      simp [setPart, hn, lookupPart, this]
    · simp only [setPart, hn, Bool.false_eq_true, if_false, lookupPart]
      by_cases hm : (n == nm) = true
      · simp [hm]
      · simp only [hm, Bool.false_eq_true, if_false]
        exact lookupPart_setPart_other hne v rest

/-- C6.  For every package whose style-definitions part is a well-formed
styles tree (style definitions sit directly under the root, as the OOXML
schema requires), patching with a target colour succeeds and returns the
package with only the styles part rewritten; every one of the four fixed
style ids that is present (first occurrence in document order) is rewritten
by `_update_style_color`, which forces the explicit colour value on both the
paragraph-level and the style-level run properties and strips the
themeColor/themeTint/themeShade attributes; all other parts are unchanged. -/
theorem c6_heading_style_patch (pkg : Package) (root : Xml) (c : String)
    (hroot : lookupPart pkg stylesPartName = some (PartContent.xmlPart root))
    (hshallow : shallowStyles root = true) :
    ∃ root',
      force_heading_colors pkg c =
        .ok (setPart pkg stylesPartName (PartContent.xmlPart root')) ∧
      (∀ nm, nm ≠ stylesPartName →
        lookupPart (setPart pkg stylesPartName (PartContent.xmlPart root')) nm =
          lookupPart pkg nm) ∧
      ∀ sid ∈ STYLE_IDS, ∀ s, findStyleDesc (isStyleWithId sid) root = some s →
        findStyleDesc (isStyleWithId sid) root' = some (update_style_color c s) ∧
        stylePatched c (update_style_color c s) = true := by
  refine ⟨STYLE_IDS.foldl (patchStyleStep c) root, ?_, ?_, ?_⟩
  · unfold force_heading_colors
    rw [hroot]
  · intro nm hnm
    exact lookupPart_setPart_other hnm _ pkg
  · intro sid hsid s hfind
    have h := (foldSteps_spec c STYLE_IDS (by decide) root hshallow).2 sid s hfind
    rw [if_pos hsid] at h
    exact ⟨h, stylePatched_update c s⟩

/-- C6, witness: a two-part package whose styles tree contains a Heading1
style, patched with colour FF0000. -/
theorem c6_heading_style_patch_witness :
    lookupPart [(stylesPartName, PartContent.xmlPart (Xml.elem (wTag "styles") []
        (XmlForest.cons (Xml.elem (wTag "style") [(wTag "styleId", "Heading1")] XmlForest.nil)
          XmlForest.nil))),
      ("word/document.xml", PartContent.bytes [7])] stylesPartName =
      some (PartContent.xmlPart (Xml.elem (wTag "styles") []
        (XmlForest.cons (Xml.elem (wTag "style") [(wTag "styleId", "Heading1")] XmlForest.nil)
          XmlForest.nil))) ∧
    shallowStyles (Xml.elem (wTag "styles") []
      (XmlForest.cons (Xml.elem (wTag "style") [(wTag "styleId", "Heading1")] XmlForest.nil)
        XmlForest.nil)) = true ∧
    ∃ root',
      force_heading_colors [(stylesPartName, PartContent.xmlPart (Xml.elem (wTag "styles") []
          (XmlForest.cons (Xml.elem (wTag "style") [(wTag "styleId", "Heading1")] XmlForest.nil)
            XmlForest.nil))),
        ("word/document.xml", PartContent.bytes [7])] "FF0000" =
        .ok (setPart [(stylesPartName, PartContent.xmlPart (Xml.elem (wTag "styles") []
            (XmlForest.cons (Xml.elem (wTag "style") [(wTag "styleId", "Heading1")] XmlForest.nil)
              XmlForest.nil))),
          ("word/document.xml", PartContent.bytes [7])] stylesPartName
          (PartContent.xmlPart root')) ∧
      (∀ nm, nm ≠ stylesPartName →
        lookupPart (setPart [(stylesPartName, PartContent.xmlPart (Xml.elem (wTag "styles") []
            (XmlForest.cons (Xml.elem (wTag "style") [(wTag "styleId", "Heading1")] XmlForest.nil)
              XmlForest.nil))),
          ("word/document.xml", PartContent.bytes [7])] stylesPartName
          (PartContent.xmlPart root')) nm =
          lookupPart [(stylesPartName, PartContent.xmlPart (Xml.elem (wTag "styles") []
            (XmlForest.cons (Xml.elem (wTag "style") [(wTag "styleId", "Heading1")] XmlForest.nil)
              XmlForest.nil))),
          ("word/document.xml", PartContent.bytes [7])] nm) ∧
      ∀ sid ∈ STYLE_IDS, ∀ s, findStyleDesc (isStyleWithId sid) (Xml.elem (wTag "styles") []
          (XmlForest.cons (Xml.elem (wTag "style") [(wTag "styleId", "Heading1")] XmlForest.nil)
            XmlForest.nil)) = some s →
        findStyleDesc (isStyleWithId sid) root' = some (update_style_color "FF0000" s) ∧
        stylePatched "FF0000" (update_style_color "FF0000" s) = true :=
  ⟨rfl, rfl,
    c6_heading_style_patch
      [(stylesPartName, PartContent.xmlPart (Xml.elem (wTag "styles") []
          (XmlForest.cons (Xml.elem (wTag "style") [(wTag "styleId", "Heading1")] XmlForest.nil)
            XmlForest.nil))),
        ("word/document.xml", PartContent.bytes [7])]
      (Xml.elem (wTag "styles") []
        (XmlForest.cons (Xml.elem (wTag "style") [(wTag "styleId", "Heading1")] XmlForest.nil)
          XmlForest.nil))
      "FF0000" rfl rfl⟩
